import Mathlib

/-!
Verification of the PDF-merge program (`src/main.rs`) against its
natural-language specification.

The program merges a list of parsed PDF documents: it renumbers each
document's object identifiers into a disjoint range, pools all page objects,
classifies every object by its "Type" name, selects a surviving Catalog and
Pages object, re-parents every pooled page under the surviving Pages object,
rebuilds its Kids/Count fields, rewires the catalog and the trailer root, and
records one pending bookmark per contributing document.

The embedding below models:
  * `merge_pdf` (src/main.rs lines 21-170): the renumber/pool loop, the
    classification pass, the failure checks, the page re-parenting and the
    Pages/Catalog rebuilds, together with the diagnostic lines it prints.
    The trailing library passes (`max_id` update, `renumber_objects`,
    `adjust_zero_pages`, `build_outline`, `compress`, lines 172-190) are
    identifier-compaction and outline-attachment passes delegated to the
    `lopdf` collaborator; per spec section 4.7 they do not alter the
    structural relationships stated here and are outside the embedding.
  * the post-discovery behaviour of `main` (lines 210-224): output-file
    creation, the success/failure print lines, and the process exit status.

The `lopdf` library itself is not part of this repository's sources; the
helpers the program calls (`renumber_objects_with`, `get_pages`,
`Dictionary::extend`, `Object::type_name`, `Bookmark`/`add_bookmark`) are
modelled from the specification's descriptions of them (sections 3, 4.1,
4.2, 4.3) and are marked `Modelled from the spec:` below.  `BTreeMap` is
modelled by its documented behaviour: a key-ordered map whose iteration
order is ascending key order.
-/

/-- Identifier of a PDF object: an (object number, generation number) pair,
mirroring `lopdf::ObjectId = (u32, u16)`. -/
abbrev ObjectId := Nat × Nat

/-- Strict lexicographic order on identifiers; this is the `Ord` instance of
Rust tuples, hence the iteration order of a `BTreeMap<ObjectId, _>`. -/
def idLt (a b : ObjectId) : Prop :=
  a.1 < b.1 ∨ (a.1 = b.1 ∧ a.2 < b.2)

instance (a b : ObjectId) : Decidable (idLt a b) := by
  unfold idLt; exact inferInstance

/- Modelled from the spec: the tagged object variant of the data model
(spec section 3).  The `Real` variant (floating point) carries no structure
the merge inspects and is omitted; `text` stands for string objects. -/
mutual
/-- Tagged object variant of the data model (spec section 3). -/
inductive Obj where
  | null
  | boolean (b : Bool)
  | integer (i : Int)
  | text (s : String)
  | name (s : String)
  | array (xs : ObjList)
  | dictionary (d : DictEntries)
  | stream (d : DictEntries)
  | reference (id : ObjectId)

/-- Ordered array of objects (spelled out so all recursions are structural). -/
inductive ObjList where
  | nil
  | cons (head : Obj) (tail : ObjList)

/-- Insertion-ordered dictionary entries (lopdf dictionaries preserve
insertion order). -/
inductive DictEntries where
  | nil
  | cons (key : String) (val : Obj) (tail : DictEntries)
end

/-- Conversion from a Lean list, for writing object literals. -/
def objArr : List Obj → ObjList
  | [] => .nil
  | o :: t => .cons o (objArr t)

/-- Conversion of dictionary literals. -/
def objDict : List (String × Obj) → DictEntries
  | [] => .nil
  | (k, v) :: t => .cons k v (objDict t)

/-- Back-conversion of an object array to a Lean list. -/
def listOfObjs : ObjList → List Obj
  | .nil => []
  | .cons o t => o :: listOfObjs t

/-- First value stored under a key (lopdf `Dictionary::get`). -/
def dictGet : DictEntries → String → Option Obj
  | .nil, _ => none
  | .cons k v t, key => if k = key then some v else dictGet t key

/-- Key set of a dictionary, in entry order. -/
def dictKeys : DictEntries → List String
  | .nil => []
  | .cons k _ t => k :: dictKeys t

/-- Modelled from the spec: lopdf `Dictionary::set` — replaces the value of an
existing key in place, otherwise appends the entry. -/
def dictSet : DictEntries → String → Obj → DictEntries
  | .nil, k, v => .cons k v .nil
  | .cons k0 v0 t, k, v => if k0 = k then .cons k v t else .cons k0 v0 (dictSet t k v)

/-- Modelled from the spec: lopdf `Dictionary::remove` — removes the entry of
the key. -/
def dictRemove : DictEntries → String → DictEntries
  | .nil, _ => .nil
  | .cons k0 v0 t, k => if k0 = k then t else .cons k0 v0 (dictRemove t k)

/-- Modelled from the spec: lopdf `Dictionary::extend self other` — inserts
every entry of `other` into `self`, `other`'s entries taking precedence on a
key conflict.  In `merge_pdf` it is called as `new.extend(&old)` with `old`
the previously accumulated Pages dictionary, which realises the spec's
first-wins rule (section 4.3: "surviving dictionary's existing fields are
never overwritten by later documents"). -/
def dictExtend (self : DictEntries) : DictEntries → DictEntries
  | .nil => self
  | .cons k v t => dictExtend (dictSet self k v) t

/-- Rust `Object::as_name_str`. -/
def asName : Obj → Option String
  | .name s => some s
  | _ => none

/-- Rust `Object::as_dict`: succeeds on plain dictionaries only. -/
def asDict : Obj → Option DictEntries
  | .dictionary d => some d
  | _ => none

/-- Rust `Object::as_reference`. -/
def asRef : Obj → Option ObjectId
  | .reference i => some i
  | _ => none

/-- Integer payload, used to inspect merge results in concrete runs. -/
def asInt : Obj → Option Int
  | .integer i => some i
  | _ => none

/-- Modelled from the spec: lopdf `Object::type_name` — the "Type" name field
of a dictionary or stream declares its structural role (spec section 3);
any other object has no resolvable type. -/
def typeName : Obj → Option String
  | .dictionary d => (dictGet d "Type").bind asName
  | .stream d => (dictGet d "Type").bind asName
  | _ => none

/-- The classifier the collector actually applies: `type_name().unwrap_or("")`
(src/main.rs line 67). -/
def typeNameD (o : Obj) : String := (typeName o).getD ""

/-- Lookup in an association list representing a `BTreeMap<ObjectId, Object>`. -/
def assocFind (m : List (ObjectId × Obj)) (k : ObjectId) : Option Obj :=
  match m with
  | [] => none
  | e :: t => if e.1 = k then some e.2 else assocFind t k

/-- Order-preserving insert, replacing the value on an equal key:
`BTreeMap::insert`. -/
def btInsert (k : ObjectId) (v : Obj) : List (ObjectId × Obj) → List (ObjectId × Obj)
  | [] => [(k, v)]
  | e :: t =>
    if k = e.1 then (k, v) :: t
    else if idLt k e.1 then (k, v) :: e :: t
    else e :: btInsert k v t

/-- Insertion of a sequence of entries in order: `BTreeMap::extend` and
`collect::<BTreeMap<_, _>>()`. -/
def btExtend (m : List (ObjectId × Obj)) (es : List (ObjectId × Obj)) :
    List (ObjectId × Obj) :=
  es.foldl (fun acc e => btInsert e.1 e.2 acc) m

/-- Key list of a map. -/
def btKeys (m : List (ObjectId × Obj)) : List ObjectId := m.map Prod.fst

/-- One parsed source document as `merge_pdf` sees it: the object table
(`Document::objects`, a `BTreeMap`, hence listed in ascending identifier
order), the identifiers `get_pages` returns in page order (kept as data here;
`collectTreePages` below is the spec model of how they arise), and the
document's `max_id` counter. -/
structure SDoc where
  objects : List (ObjectId × Obj)
  pages : List ObjectId
  maxId : Nat

/-- Identifier shift by an offset, generation preserved. -/
def shiftId (off : Nat) (id : ObjectId) : ObjectId := (id.1 + off, id.2)

/- Modelled from the spec: reference rewriting inside an object during
renumbering (spec 4.1: the offset is added to "every Reference it contains"). -/
mutual
/-- Rewrites every reference inside an object through `f`. -/
def remapObj (f : ObjectId → ObjectId) : Obj → Obj
  | .null => .null
  | .boolean b => .boolean b
  | .integer i => .integer i
  | .text s => .text s
  | .name s => .name s
  | .array xs => .array (remapObjs f xs)
  | .dictionary d => .dictionary (remapEntries f d)
  | .stream d => .stream (remapEntries f d)
  | .reference id => .reference (f id)

def remapObjs (f : ObjectId → ObjectId) : ObjList → ObjList
  | .nil => .nil
  | .cons o t => .cons (remapObj f o) (remapObjs f t)

def remapEntries (f : ObjectId → ObjectId) : DictEntries → DictEntries
  | .nil => .nil
  | .cons k v t => .cons k (remapObj f v) (remapEntries f t)
end

/-- Modelled from the spec: `Document::renumber_objects_with` (spec 4.1) —
adds an offset to every identifier the graph owns and every reference it
contains, and updates the maximum-identifier counter; a zero-object graph is
a no-op.  The loop in `merge_pdf` threads the running counter through it
(`doc.renumber_objects_with(max_id); max_id = doc.max_id + 1`). -/
def renumberWith (off : Nat) (d : SDoc) : SDoc :=
  { objects := d.objects.map (fun e => (shiftId off e.1, remapObj (shiftId off) e.2))
    pages := d.pages.map (shiftId off)
    maxId := d.maxId + off }

/-- Modelled from the spec: a pending bookmark (spec sections 3 and 4.2):
title, indent level and target page identifier.  The constant colour argument
`[0.0, 0.0, 1.0]` of `Bookmark::new` is a floating-point literal the merge
never inspects and is left outside the embedding; `add_bookmark(b, None)`
records a top-level (indent 0) bookmark, in order. -/
structure Bookmark where
  title : String
  indent : Nat
  target : ObjectId
deriving DecidableEq

/-- State threaded through the first loop of `merge_pdf`
(src/main.rs lines 23-57): the running `max_id` and `page_num` counters, the
accumulated `documents_pages` and `documents_objects` maps, and the bookmarks
recorded into the output document so far. -/
structure LoopSt where
  maxId : Nat
  pageNum : Nat
  documentsPages : List (ObjectId × Obj)
  documentsObjects : List (ObjectId × Obj)
  bookmarks : List Bookmark

/-- Initial state: `max_id = 1`, `page_num = 1`, empty maps. -/
def initSt : LoopSt := ⟨1, 1, [], [], []⟩

/-- The pooled object of a page identifier.  The Rust code unwraps the lookup
(`doc.get_object(object_id).unwrap()`, line 51); the default is never reached
for identifiers produced by the page-tree traversal (claim C10). -/
def getObjD (tbl : List (ObjectId × Obj)) (k : ObjectId) : Obj :=
  (assocFind tbl k).getD .null

/-- Per-document page pool:
`doc.get_pages().into_values().map(|id| (id, doc.get_object(id)...)).collect::<BTreeMap<_, _>>()`
(lines 37-54). -/
def docPool (d : SDoc) : List (ObjectId × Obj) :=
  btExtend [] (d.pages.map (fun id => (id, getObjD d.objects id)))

/-- One iteration of the first loop of `merge_pdf` (lines 31-57): renumber the
document, record a bookmark for its first page (if any) under the current
`page_num`, pool its pages, and merge its object table. -/
def step (st : LoopSt) (d0 : SDoc) : LoopSt :=
  let d := renumberWith st.maxId d0
  let bk : List Bookmark × Nat :=
    match d.pages with
    | [] => (st.bookmarks, st.pageNum)
    | p :: _ => (st.bookmarks ++ [⟨"Page_" ++ toString st.pageNum, 0, p⟩], st.pageNum + 1)
  { maxId := d.maxId + 1
    pageNum := bk.2
    documentsPages := btExtend st.documentsPages (docPool d)
    documentsObjects := btExtend st.documentsObjects d.objects
    bookmarks := bk.1 }

/-- The whole first loop of `merge_pdf`. -/
def mergeLoop : LoopSt → List SDoc → LoopSt
  | st, [] => st
  | st, d :: ds => mergeLoop (step st d) ds

/-- Collector state (lines 59-62): the provisional surviving Catalog and Pages
objects, and the "other objects" inserted into the output document's table. -/
structure Collect where
  catalogObject : Option (ObjectId × Obj)
  pagesObject : Option (ObjectId × Obj)
  others : List (ObjectId × Obj)

/-- One iteration of the classification loop (lines 64-107): `Catalog` keeps
the first-seen identifier but the current object; `Pages` keeps the first-seen
identifier and merges the dictionaries (the accumulated one taking
precedence); `Page`, `Outlines` and `Outline` are dropped; everything else is
inserted into the output table. -/
def collectStep (c : Collect) (e : ObjectId × Obj) : Collect :=
  let t := typeNameD e.2
  if t = "Catalog" then
    let keptId :=
      match c.catalogObject with
      | some (id, _) => id
      | none => e.1
    { c with catalogObject := some (keptId, e.2) }
  else if t = "Pages" then
    match asDict e.2 with
    | some dct =>
      let merged :=
        match c.pagesObject with
        | some (_, old) =>
          match asDict old with
          | some oldD => dictExtend dct oldD
          | none => dct
        | none => dct
      let keptId :=
        match c.pagesObject with
        | some (id, _) => id
        | none => e.1
      { c with pagesObject := some (keptId, Obj.dictionary merged) }
    | none => c
  else if t = "Page" then c
  else if t = "Outlines" then c
  else if t = "Outline" then c
  else { c with others := btInsert e.1 e.2 c.others }

/-- The page re-parenting loop (lines 117-126): every pooled page that is a
dictionary is inserted into the output table with its `Parent` set to the
surviving Pages identifier. -/
def withParents (pid : ObjectId) (base : List (ObjectId × Obj))
    (pool : List (ObjectId × Obj)) : List (ObjectId × Obj) :=
  pool.foldl
    (fun tbl e =>
      match asDict e.2 with
      | some dct =>
        btInsert e.1 (Obj.dictionary (dictSet dct "Parent" (Obj.reference pid))) tbl
      | none => tbl)
    base

/-- Wrap-around bound of the `as u32` cast applied to the page count. -/
def u32Mod : Nat := 2 ^ 32

/-- The rebuilt surviving Pages dictionary (lines 139-157): `Count` is the
pooled page count (cast to `u32`), `Kids` is the ordered reference list over
the pool, and the result is inserted at the surviving Pages identifier.  If
the surviving Pages object is somehow not a dictionary the table is left
unchanged (the `if let` falls through). -/
def rebuildPages (pool : List (ObjectId × Obj)) (pagesObj : ObjectId × Obj)
    (tbl : List (ObjectId × Obj)) : List (ObjectId × Obj) :=
  match asDict pagesObj.2 with
  | some dct =>
    btInsert pagesObj.1
      (Obj.dictionary
        (dictSet
          (dictSet dct "Count" (Obj.integer (Int.ofNat (pool.length % u32Mod))))
          "Kids"
          (Obj.array (objArr (pool.map (fun e => Obj.reference e.1))))))
      tbl
  | none => tbl

/-- The rebuilt surviving Catalog dictionary (lines 159-168): `Pages` is
rewired to the surviving Pages identifier and any `Outlines` entry is removed. -/
def rebuildCatalog (pid : ObjectId) (catObj : ObjectId × Obj)
    (tbl : List (ObjectId × Obj)) : List (ObjectId × Obj) :=
  match asDict catObj.2 with
  | some dct =>
    btInsert catObj.1
      (Obj.dictionary (dictRemove (dictSet dct "Pages" (Obj.reference pid)) "Outlines"))
      tbl
  | none => tbl

/-- The merged document as of src/main.rs line 170: output object table,
recorded bookmarks, surviving Pages and Catalog identifiers, trailer root. -/
structure MergedDoc where
  objects : List (ObjectId × Obj)
  bookmarks : List Bookmark
  pagesId : ObjectId
  catalogId : ObjectId
  trailerRoot : ObjectId

/-- A placeholder merged document, used only to name concrete merge results. -/
def dummyMerged : MergedDoc := ⟨[], [], (0, 0), (0, 0), (0, 0)⟩

/-- The core merge (src/main.rs lines 21-170).  Returns the merged document
(or `none` on a structural failure) together with the list of diagnostic
lines printed by `merge_pdf` itself.  The checks and effects occur in source
order: the pool/renumber loop, the classification pass, the "Pages root not
found." check, the page re-parenting, the "Catalog root not found." check,
the Pages and Catalog rebuilds and the trailer-root assignment. -/
def merge_pdf (documents : List SDoc) : Option MergedDoc × List String :=
  let st := mergeLoop initSt documents
  let c := st.documentsObjects.foldl collectStep ⟨none, none, []⟩
  match c.pagesObject with
  | none => (none, ["Pages root not found."])
  | some pagesObj =>
    let objs1 := withParents pagesObj.1 c.others st.documentsPages
    match c.catalogObject with
    | none => (none, ["Catalog root not found."])
    | some catObj =>
      (some { objects := rebuildCatalog pagesObj.1 catObj
                           (rebuildPages st.documentsPages pagesObj objs1)
              bookmarks := st.bookmarks
              pagesId := pagesObj.1
              catalogId := catObj.1
              trailerRoot := catObj.1 },
       [])

/-- Outcome of one program run, past document discovery. -/
structure MainOutcome where
  printedLines : List String
  outputFileCreated : Bool
  mergedContentWritten : Bool
  exitCode : Nat
deriving DecidableEq

/-- Modelled from the spec: the post-discovery behaviour of `main`
(src/main.rs lines 210-224, spec section 6).  `File::create(&output_path)`
runs before `merge_pdf` is called, so the output file is created (truncated)
in every run; on success the merged document is saved and the success line
printed; on failure one more line is printed and nothing is written to the
already-created file; `main` returns `Ok(())` either way, so the exit status
is 0.  File creation and saving are collaborators assumed to succeed. -/
def mainCore (documents : List SDoc) : MainOutcome :=
  match merge_pdf documents with
  | (some _, out) =>
    { printedLines := out ++ ["PDFs merged into \"merged_output.pdf\""]
      outputFileCreated := true
      mergedContentWritten := true
      exitCode := 0 }
  | (none, out) =>
    { printedLines := out ++ ["Failed to merge PDFs."]
      outputFileCreated := true
      mergedContentWritten := false
      exitCode := 0 }

/-! ### Specification-side reference definitions

These closed-form descriptions are what the claims compare the merge against. -/

/-- The renumbered document sequence, threading the running counter exactly as
the merge loop does. -/
def renumberAll (start : Nat) : List SDoc → List SDoc
  | [] => []
  | d :: ds =>
    let d1 := renumberWith start d
    d1 :: renumberAll (d1.maxId + 1) ds

/-- The renumbered inputs of a run (the loop starts at `max_id = 1`). -/
def rdocsOf (documents : List SDoc) : List SDoc := renumberAll 1 documents

/-- Concatenation of the renumbered inputs' object tables, in input order. -/
def allObjectsOf (documents : List SDoc) : List (ObjectId × Obj) :=
  ((rdocsOf documents).map SDoc.objects).flatten

/-- Concatenation of the renumbered inputs' page lists, in input-traversal
order: each input's page order, in document order. -/
def allPagesOf (documents : List SDoc) : List ObjectId :=
  ((rdocsOf documents).map SDoc.pages).flatten

/-- Concatenation of the per-document page pools, in input order. -/
def poolOf (documents : List SDoc) : List (ObjectId × Obj) :=
  ((rdocsOf documents).map docPool).flatten

/-- Expected pending bookmarks over the renumbered documents: one bookmark per
document that contributes at least one page, numbered consecutively from `n`
(a document with no pages does not consume a number), each targeting the
document's first page. -/
def pendingBookmarks (n : Nat) : List SDoc → List Bookmark
  | [] => []
  | d :: ds =>
    match d.pages with
    | [] => pendingBookmarks n ds
    | p :: _ => ⟨"Page_" ++ toString n, 0, p⟩ :: pendingBookmarks (n + 1) ds

/-- Catalog-classified entries. -/
def isCatalogB (e : ObjectId × Obj) : Bool := decide (typeNameD e.2 = "Catalog")

/-- Pages-classified entries that are plain dictionaries (the only ones the
collector's Pages branch acts on). -/
def isPagesDictB (e : ObjectId × Obj) : Bool :=
  decide (typeNameD e.2 = "Pages") && (asDict e.2).isSome

/-- Entries belonging to none of the five recognised roles: these land in the
"other objects" table. -/
def isOtherB (e : ObjectId × Obj) : Bool :=
  decide (typeNameD e.2 ≠ "Catalog" ∧ typeNameD e.2 ≠ "Pages" ∧
    typeNameD e.2 ≠ "Page" ∧ typeNameD e.2 ≠ "Outlines" ∧ typeNameD e.2 ≠ "Outline")

/-- The Pages-classified dictionaries of an entry sequence, in order. -/
def pagesDicts (es : List (ObjectId × Obj)) : List DictEntries :=
  (es.filter isPagesDictB).filterMap (fun e => asDict e.2)

/-- First value defined for a key when scanning a dictionary sequence in
order: the spec's first-wins rule. -/
def firstDefined (ds : List DictEntries) (k : String) : Option Obj :=
  match ds with
  | [] => none
  | d :: t =>
    match dictGet d k with
    | some v => some v
    | none => firstDefined t k

/-- The surviving Pages dictionary of a merge result. -/
def survivingPagesDict (m : MergedDoc) : Option DictEntries :=
  (assocFind m.objects m.pagesId).bind asDict

/-- The identifiers listed by the surviving Pages dictionary's Kids array. -/
def survivingKidsIds (m : MergedDoc) : List ObjectId :=
  match (survivingPagesDict m).bind (fun d => dictGet d "Kids") with
  | some (.array xs) => (listOfObjs xs).filterMap asRef
  | _ => []

/-- Modelled from the spec: the page-tree traversal behind `get_pages`
(spec section 3, "Pages tree: the Pages dictionary and its Kids/Page subtree,
enumerating all leaf pages in order"): from a starting identifier, a "Pages"
node enumerates its Kids references in order, a "Page" node is a leaf, and an
unresolvable identifier or any other object contributes nothing.  `fuel`
bounds the recursion depth (spec section 9 notes that reference cycles are
not guarded against). -/
def kidsIdsOf (o : Obj) : List ObjectId :=
  match (asDict o).bind (fun d => dictGet d "Kids") with
  | some (.array kids) => (listOfObjs kids).filterMap asRef
  | _ => []

/-- Page-tree traversal (see the comment above `kidsIdsOf`). -/
def collectTreePages (tbl : List (ObjectId × Obj)) : Nat → ObjectId → List ObjectId
  | 0, _ => []
  | fuel + 1, id =>
    match assocFind tbl id with
    | none => []
    | some o =>
      if typeNameD o = "Page" then [id]
      else if typeNameD o = "Pages" then
        ((kidsIdsOf o).map (fun kidId => collectTreePages tbl fuel kidId)).flatten
      else []

/-- Well-formedness of a parsed document, as the loader guarantees it: the
object table is in strictly ascending identifier order (it is a `BTreeMap`)
with every object number bounded by `max_id`, and the page list is
duplicate-free with bounded numbers. -/
def WFDoc (d : SDoc) : Prop :=
  List.Pairwise (fun a b => idLt a.1 b.1) d.objects ∧
  d.pages.Nodup ∧
  (∀ e ∈ d.objects, e.1.1 ≤ d.maxId) ∧
  (∀ p ∈ d.pages, p.1 ≤ d.maxId)

instance (d : SDoc) : Decidable (WFDoc d) := by
  unfold WFDoc; exact inferInstance

/-- A page entry resolves to a dictionary whose Type is "Page". -/
def isPageDict : Option Obj → Bool
  | some (.dictionary dd) =>
    match dictGet dd "Type" with
    | some (.name s) => s = "Page"
    | _ => false
  | _ => false

/-- Every identifier in the page list resolves to a Page-typed dictionary in
the same document's table — what the page-tree traversal guarantees for the
`get_pages` result (see `collectTreePages`). -/
def PagesTyped (d : SDoc) : Prop :=
  ∀ p ∈ d.pages, isPageDict (assocFind d.objects p) = true

instance (d : SDoc) : Decidable (PagesTyped d) := by
  unfold PagesTyped; exact inferInstance

/-! ### Order lemmas -/

theorem idLt_irrefl (a : ObjectId) : ¬ idLt a a := by
  unfold idLt; omega

theorem idLt_trans {a b c : ObjectId} (h1 : idLt a b) (h2 : idLt b c) : idLt a c := by
  unfold idLt at h1 h2 ⊢; omega

theorem idLt_asymm {a b : ObjectId} (h : idLt a b) : ¬ idLt b a := by
  unfold idLt at h ⊢; omega

theorem idLt_ne {a b : ObjectId} (h : idLt a b) : a ≠ b := by
  rcases a with ⟨a1, a2⟩; rcases b with ⟨b1, b2⟩
  unfold idLt at h
  simp only [Prod.mk.injEq, ne_eq, not_and]
  simp only at h
  omega

theorem idLt_of_not_of_ne {a b : ObjectId} (h1 : ¬ idLt a b) (h2 : b ≠ a) : idLt b a := by
  rcases a with ⟨a1, a2⟩; rcases b with ⟨b1, b2⟩
  unfold idLt at h1 ⊢
  simp only [Prod.mk.injEq, ne_eq, not_and] at h2
  simp only at h1 ⊢
  by_cases hb : b1 = a1
  · subst hb
    have : ¬ b2 = a2 := by intro hc; exact h2 rfl hc
    omega
  · omega

theorem shiftId_idLt (off : Nat) {a b : ObjectId} :
    idLt (shiftId off a) (shiftId off b) ↔ idLt a b := by
  unfold idLt shiftId; simp only; omega

theorem shiftId_injective (off : Nat) : Function.Injective (shiftId off) := by
  intro a b h
  rcases a with ⟨a1, a2⟩; rcases b with ⟨b1, b2⟩
  unfold shiftId at h
  simp only [Prod.mk.injEq] at h ⊢
  omega

/-- Key-level order on map entries. -/
def keyLt (a b : ObjectId × Obj) : Prop := idLt a.1 b.1

instance (a b : ObjectId × Obj) : Decidable (keyLt a b) := by
  unfold keyLt; exact inferInstance

theorem keyLt_trans {a b c : ObjectId × Obj} (h1 : keyLt a b) (h2 : keyLt b c) :
    keyLt a c := idLt_trans h1 h2

/-! ### Map lemmas: `assocFind`, `btInsert`, `btExtend` -/

theorem assocFind_btInsert_self (k : ObjectId) (v : Obj) (m : List (ObjectId × Obj)) :
    assocFind (btInsert k v m) k = some v := by
  induction m with
  | nil => simp [btInsert, assocFind]
  | cons e t ih =>
    by_cases h1 : k = e.1
    · simp [btInsert, h1, assocFind]
    · by_cases h2 : idLt k e.1
      · simp [btInsert, h1, h2, assocFind]
      · have hne : ¬ e.1 = k := fun h => h1 h.symm
        simp [btInsert, h1, h2, assocFind, hne, ih]

theorem assocFind_btInsert_ne {k k' : ObjectId} (v : Obj) (m : List (ObjectId × Obj))
    (h : k' ≠ k) : assocFind (btInsert k v m) k' = assocFind m k' := by
  have hkk : ¬ k = k' := fun hc => h hc.symm
  induction m with
  | nil => simp [btInsert, assocFind, hkk]
  | cons e t ih =>
    by_cases h1 : k = e.1
    · subst h1
      simp [btInsert, assocFind, hkk]
    · by_cases h2 : idLt k e.1
      · simp [btInsert, h1, h2, assocFind, hkk]
      · simp [btInsert, h1, h2, assocFind, ih]

theorem mem_btInsert {e : ObjectId × Obj} {k : ObjectId} {v : Obj}
    {m : List (ObjectId × Obj)} (h : e ∈ btInsert k v m) : e = (k, v) ∨ e ∈ m := by
  induction m with
  | nil => simpa [btInsert] using h
  | cons e0 t ih =>
    by_cases h1 : k = e0.1
    · simp only [btInsert, if_pos h1, List.mem_cons] at h
      rcases h with h | h
      · exact Or.inl h
      · exact Or.inr (List.mem_cons_of_mem _ h)
    · by_cases h2 : idLt k e0.1
      · simp only [btInsert, if_neg h1, if_pos h2, List.mem_cons] at h
        rcases h with h | h | h
        · exact Or.inl h
        · exact Or.inr (h ▸ List.mem_cons_self _ _)
        · exact Or.inr (List.mem_cons_of_mem _ h)
      · simp only [btInsert, if_neg h1, if_neg h2, List.mem_cons] at h
        rcases h with h | h
        · exact Or.inr (h ▸ List.mem_cons_self _ _)
        · rcases ih h with h' | h'
          · exact Or.inl h'
          · exact Or.inr (List.mem_cons_of_mem _ h')

theorem btInsert_pairwise {k : ObjectId} {v : Obj} {m : List (ObjectId × Obj)}
    (h : List.Pairwise keyLt m) : List.Pairwise keyLt (btInsert k v m) := by
  induction m with
  | nil => simp [btInsert]
  | cons e t ih =>
    rw [List.pairwise_cons] at h
    obtain ⟨he, ht⟩ := h
    by_cases h1 : k = e.1
    · simp only [btInsert, if_pos h1]
      rw [List.pairwise_cons]
      exact ⟨fun y hy => h1 ▸ he y hy, ht⟩
    · by_cases h2 : idLt k e.1
      · simp only [btInsert, if_neg h1, if_pos h2]
        rw [List.pairwise_cons]
        refine ⟨fun y hy => ?_, by rw [List.pairwise_cons]; exact ⟨he, ht⟩⟩
        rcases List.mem_cons.mp hy with h' | h'
        · exact h' ▸ h2
        · exact idLt_trans h2 (he y h')
      · have h3 : idLt e.1 k := idLt_of_not_of_ne h2 (fun hc => h1 hc.symm)
        simp only [btInsert, if_neg h1, if_neg h2]
        rw [List.pairwise_cons]
        refine ⟨fun y hy => ?_, ih ht⟩
        rcases mem_btInsert hy with h' | h'
        · exact h' ▸ h3
        · exact he y h'

theorem btInsert_perm {k : ObjectId} {v : Obj} {m : List (ObjectId × Obj)}
    (h : k ∉ btKeys m) : (btInsert k v m).Perm ((k, v) :: m) := by
  induction m with
  | nil => simp [btInsert]
  | cons e t ih =>
    simp only [btKeys, List.map_cons, List.mem_cons] at h
    push_neg at h
    obtain ⟨h1', ht⟩ := h
    have h1 : ¬ k = e.1 := h1'
    by_cases h2 : idLt k e.1
    · simp [btInsert, h1, h2]
    · simp only [btInsert, if_neg h1, if_neg h2]
      exact (List.Perm.cons e (ih ht)).trans (List.Perm.swap _ _ _)

theorem btInsert_append_of_lt {k : ObjectId} {v : Obj} {m : List (ObjectId × Obj)}
    (h : ∀ e ∈ m, idLt e.1 k) : btInsert k v m = m ++ [(k, v)] := by
  induction m with
  | nil => simp [btInsert]
  | cons e t ih =>
    have he := h e (List.mem_cons_self _ _)
    have h1 : ¬ k = e.1 := fun hc => idLt_irrefl k (hc ▸ he)
    have h2 : ¬ idLt k e.1 := idLt_asymm he
    simp only [btInsert, if_neg h1, if_neg h2, List.cons_append, List.cons.injEq, true_and]
    exact ih (fun e' he' => h e' (List.mem_cons_of_mem _ he'))

theorem btExtend_nil (m : List (ObjectId × Obj)) : btExtend m [] = m := rfl

theorem btExtend_cons (m : List (ObjectId × Obj)) (e : ObjectId × Obj)
    (es : List (ObjectId × Obj)) :
    btExtend m (e :: es) = btExtend (btInsert e.1 e.2 m) es := rfl

theorem btExtend_pairwise {m : List (ObjectId × Obj)} (es : List (ObjectId × Obj))
    (h : List.Pairwise keyLt m) : List.Pairwise keyLt (btExtend m es) := by
  induction es generalizing m with
  | nil => exact h
  | cons e t ih => exact ih (btInsert_pairwise h)

theorem btExtend_append {m es : List (ObjectId × Obj)}
    (hm : ∀ a ∈ m, ∀ b ∈ es, idLt a.1 b.1) (hes : List.Pairwise keyLt es) :
    btExtend m es = m ++ es := by
  induction es generalizing m with
  | nil => simp [btExtend]
  | cons e t ih =>
    rw [List.pairwise_cons] at hes
    obtain ⟨he, ht⟩ := hes
    rw [btExtend_cons]
    rw [btInsert_append_of_lt (fun a ha => hm a ha e (List.mem_cons_self _ _))]
    rw [ih (fun a ha b hb => ?_) ht]
    · simp
    · rcases List.mem_append.mp ha with h' | h'
      · exact hm a h' b (List.mem_cons_of_mem _ hb)
      · have : a = (e.1, e.2) := by
          rcases List.mem_singleton.mp h' with h''
          exact h'' ▸ rfl
        rw [this]
        exact he b hb

theorem btExtend_perm {m es : List (ObjectId × Obj)}
    (hnd : (btKeys es).Nodup) (hdis : ∀ k ∈ btKeys es, k ∉ btKeys m) :
    (btExtend m es).Perm (m ++ es) := by
  induction es generalizing m with
  | nil => simp [btExtend]
  | cons e t ih =>
    simp only [btKeys, List.map_cons, List.nodup_cons] at hnd
    obtain ⟨hne, hndt⟩ := hnd
    rw [btExtend_cons]
    have hdise : e.1 ∉ btKeys m := hdis e.1 (by simp [btKeys])
    have hkeys : (btKeys (btInsert e.1 e.2 m)).Perm (e.1 :: btKeys m) := by
      have := (@btInsert_perm e.1 e.2 m hdise).map Prod.fst
      simpa [btKeys] using this
    have hdist : ∀ k ∈ btKeys t, k ∉ btKeys (btInsert e.1 e.2 m) := by
      intro k hk hmem
      have : k ∈ e.1 :: btKeys m := hkeys.mem_iff.mp hmem
      rcases List.mem_cons.mp this with h' | h'
      · exact hne (h' ▸ hk)
      · exact hdis k (List.mem_cons_of_mem _ (by exact hk)) h'
    have step1 : (btExtend (btInsert e.1 e.2 m) t).Perm (btInsert e.1 e.2 m ++ t) :=
      ih hndt hdist
    have step2 : (btInsert e.1 e.2 m ++ t).Perm (((e.1, e.2) :: m) ++ t) :=
      (btInsert_perm hdise).append_right t
    have step3 : (((e.1, e.2) :: m) ++ t).Perm (m ++ e :: t) := by
      simp only [List.cons_append]
      exact List.perm_middle.symm
    exact step1.trans (step2.trans step3)

theorem assocFind_append (m es : List (ObjectId × Obj)) (k : ObjectId) :
    assocFind (m ++ es) k =
      match assocFind m k with
      | some v => some v
      | none => assocFind es k := by
  induction m with
  | nil => simp [assocFind]
  | cons e t ih =>
    by_cases h : e.1 = k
    · simp [assocFind, h]
    · simp [assocFind, h, ih]

theorem assocFind_mem {m : List (ObjectId × Obj)} {k : ObjectId} {v : Obj}
    (h : assocFind m k = some v) : (k, v) ∈ m := by
  induction m with
  | nil => simp [assocFind] at h
  | cons e t ih =>
    by_cases h1 : e.1 = k
    · simp only [assocFind, if_pos h1] at h
      have hv : e.2 = v := Option.some.inj h
      have he : e = (k, v) := by
        rcases e with ⟨ek, ev⟩
        simp only at h1 hv
        rw [h1, hv]
      rw [← he]
      exact List.mem_cons_self _ _
    · simp only [assocFind, if_neg h1] at h
      exact List.mem_cons_of_mem _ (ih h)

theorem assocFind_isSome_iff {m : List (ObjectId × Obj)} {k : ObjectId} :
    (assocFind m k).isSome = true ↔ k ∈ btKeys m := by
  induction m with
  | nil => simp [assocFind, btKeys]
  | cons e t ih =>
    by_cases h1 : e.1 = k
    · simp [assocFind, h1, btKeys]
    · have h2 : ¬ k = e.1 := fun hc => h1 hc.symm
      simp [assocFind, h1, btKeys, h2, ih]

theorem assocFind_eq_none_of_not_mem {m : List (ObjectId × Obj)} {k : ObjectId}
    (h : k ∉ btKeys m) : assocFind m k = none := by
  cases hf : assocFind m k with
  | none => rfl
  | some v =>
    exact absurd (assocFind_isSome_iff.mp (by simp [hf])) h

theorem pairwise_keys_nodup {m : List (ObjectId × Obj)}
    (h : List.Pairwise keyLt m) : (btKeys m).Nodup := by
  have : List.Pairwise idLt (btKeys m) := List.Pairwise.map Prod.fst (fun a b hab => hab) h
  exact List.Pairwise.imp (fun hab => idLt_ne hab) this

theorem assocFind_eq_of_mem {m : List (ObjectId × Obj)} {k : ObjectId} {v : Obj}
    (hnd : (btKeys m).Nodup) (h : (k, v) ∈ m) : assocFind m k = some v := by
  induction m with
  | nil => simp at h
  | cons e t ih =>
    simp only [btKeys, List.map_cons, List.nodup_cons] at hnd
    obtain ⟨hne, hndt⟩ := hnd
    rcases List.mem_cons.mp h with h' | h'
    · rw [← h']
      simp [assocFind]
    · have hk : e.1 ≠ k := by
        intro hc
        exact hne (hc ▸ (List.mem_map_of_mem Prod.fst h' : k ∈ btKeys t))
      simp only [assocFind, if_neg hk]
      exact ih hndt h'

/-! ### Dictionary lemmas -/

theorem dictGet_dictSet_self : ∀ (d : DictEntries) (k : String) (v : Obj),
    dictGet (dictSet d k v) k = some v
  | .nil, k, v => by simp [dictSet, dictGet]
  | .cons k0 v0 t, k, v => by
    by_cases h : k0 = k
    · simp [dictSet, h, dictGet]
    · simp [dictSet, h, dictGet, dictGet_dictSet_self t k v]

theorem dictGet_dictSet_ne : ∀ (d : DictEntries) {k k' : String} (v : Obj),
    k' ≠ k → dictGet (dictSet d k v) k' = dictGet d k'
  | .nil, k, k', v, h => by
    have hkk : ¬ k = k' := fun hc => h hc.symm
    simp [dictSet, dictGet, hkk]
  | .cons k0 v0 t, k, k', v, h => by
    have hkk : ¬ k = k' := fun hc => h hc.symm
    by_cases h0 : k0 = k
    · subst h0
      simp [dictSet, dictGet, hkk]
    · by_cases h1 : k0 = k'
      · simp [dictSet, h0, dictGet, h1, h]
      · simp [dictSet, h0, dictGet, h1, dictGet_dictSet_ne t v h]

theorem dictGet_eq_none_of_not_mem : ∀ (d : DictEntries) (k : String),
    k ∉ dictKeys d → dictGet d k = none
  | .nil, _, _ => rfl
  | .cons k0 v0 t, k, h => by
    simp only [dictKeys, List.mem_cons] at h
    push_neg at h
    simp only [dictGet, if_neg (fun hc : k0 = k => h.1 hc.symm)]
    exact dictGet_eq_none_of_not_mem t k h.2

theorem dictGet_dictExtend : ∀ (other self : DictEntries) (k : String),
    (dictKeys other).Nodup →
    dictGet (dictExtend self other) k =
      match dictGet other k with
      | some v => some v
      | none => dictGet self k
  | .nil, self, k, _ => by simp [dictExtend, dictGet]
  | .cons k0 v0 t, self, k, h => by
    simp only [dictKeys, List.nodup_cons] at h
    obtain ⟨hk0, hndt⟩ := h
    show dictGet (dictExtend (dictSet self k0 v0) t) k = _
    rw [dictGet_dictExtend t (dictSet self k0 v0) k hndt]
    by_cases hkk : k = k0
    · subst hkk
      rw [dictGet_eq_none_of_not_mem t k hk0]
      simp [dictGet, dictGet_dictSet_self]
    · have hcons : dictGet (DictEntries.cons k0 v0 t) k = dictGet t k := by
        have hne : ¬ k0 = k := fun hc => hkk hc.symm
        simp [dictGet, hne]
      rw [hcons]
      cases hdt : dictGet t k with
      | some v => simp
      | none => simp [dictGet_dictSet_ne self v0 hkk]

/-! ### Remap and renumber lemmas -/

theorem asName_remapObj (f : ObjectId → ObjectId) (o : Obj) :
    asName (remapObj f o) = asName o := by
  cases o <;> simp [remapObj, asName]

theorem dictGet_remapEntries : ∀ (f : ObjectId → ObjectId) (d : DictEntries) (k : String),
    dictGet (remapEntries f d) k = (dictGet d k).map (remapObj f)
  | _, .nil, _ => rfl
  | f, .cons k0 v0 t, k => by
    by_cases h : k0 = k
    · simp [remapEntries, dictGet, h]
    · simp [remapEntries, dictGet, h, dictGet_remapEntries f t k]

theorem typeName_remapObj (f : ObjectId → ObjectId) (o : Obj) :
    typeName (remapObj f o) = typeName o := by
  cases o with
  | dictionary d =>
    simp only [remapObj, typeName, dictGet_remapEntries]
    cases dictGet d "Type" with
    | none => rfl
    | some v => simp [asName_remapObj]
  | stream d =>
    simp only [remapObj, typeName, dictGet_remapEntries]
    cases dictGet d "Type" with
    | none => rfl
    | some v => simp [asName_remapObj]
  | null => rfl
  | boolean b => rfl
  | integer i => rfl
  | text s => rfl
  | name s => rfl
  | array xs => rfl
  | reference id => rfl

theorem typeNameD_remapObj (f : ObjectId → ObjectId) (o : Obj) :
    typeNameD (remapObj f o) = typeNameD o := by
  unfold typeNameD
  rw [typeName_remapObj]

theorem asDict_remapObj (f : ObjectId → ObjectId) (o : Obj) :
    asDict (remapObj f o) = (asDict o).map (remapEntries f) := by
  cases o <;> simp [remapObj, asDict]

theorem assocFind_renumber (off : Nat) (d : SDoc) (k : ObjectId) :
    assocFind (renumberWith off d).objects (shiftId off k) =
      (assocFind d.objects k).map (remapObj (shiftId off)) := by
  show assocFind (d.objects.map _) _ = _
  induction d.objects with
  | nil => simp [assocFind]
  | cons e t ih =>
    by_cases h : e.1 = k
    · simp [assocFind, h]
    · have h' : ¬ shiftId off e.1 = shiftId off k := fun hc => h (shiftId_injective off hc)
      simp only [List.map_cons, assocFind, if_neg h', if_neg h]
      exact ih

theorem WFDoc_renumber {d : SDoc} (off : Nat) (h : WFDoc d) :
    WFDoc (renumberWith off d) := by
  obtain ⟨hpw, hnd, hbo, hbp⟩ := h
  refine ⟨?_, ?_, ?_, ?_⟩
  · exact List.Pairwise.map _ (fun a b hab => (shiftId_idLt off).mpr hab) hpw
  · exact hnd.map (shiftId_injective off)
  · intro e he
    simp only [renumberWith, List.mem_map] at he
    obtain ⟨a, ha, rfl⟩ := he
    have := hbo a ha
    simp only [shiftId, renumberWith]
    omega
  · intro p hp
    simp only [renumberWith, List.mem_map] at hp
    obtain ⟨a, ha, rfl⟩ := hp
    have := hbp a ha
    simp only [shiftId, renumberWith]
    omega

theorem renumber_objects_lb (off : Nat) (d : SDoc) :
    ∀ e ∈ (renumberWith off d).objects, off ≤ e.1.1 := by
  intro e he
  simp only [renumberWith, List.mem_map] at he
  obtain ⟨a, _, rfl⟩ := he
  simp [shiftId]

theorem renumber_pages_lb (off : Nat) (d : SDoc) :
    ∀ p ∈ (renumberWith off d).pages, off ≤ p.1 := by
  intro p hp
  simp only [renumberWith, List.mem_map] at hp
  obtain ⟨a, _, rfl⟩ := hp
  simp [shiftId]

theorem isPageDict_remap (f : ObjectId → ObjectId) (o : Option Obj) :
    isPageDict (o.map (remapObj f)) = isPageDict o := by
  match o with
  | none => rfl
  | some (Obj.dictionary dd) =>
    show (match dictGet (remapEntries f dd) "Type" with
          | some (Obj.name s) => decide (s = "Page")
          | _ => false) =
         (match dictGet dd "Type" with
          | some (Obj.name s) => decide (s = "Page")
          | _ => false)
    rw [dictGet_remapEntries]
    cases h : dictGet dd "Type" with
    | none => rfl
    | some tv => cases tv <;> rfl
  | some Obj.null => rfl
  | some (Obj.boolean b) => rfl
  | some (Obj.integer i) => rfl
  | some (Obj.text s) => rfl
  | some (Obj.name s) => rfl
  | some (Obj.array xs) => rfl
  | some (Obj.stream dd) => rfl
  | some (Obj.reference i) => rfl

theorem PagesTyped_renumber {d : SDoc} (off : Nat) (h : PagesTyped d) :
    PagesTyped (renumberWith off d) := by
  intro p hp
  simp only [renumberWith, List.mem_map] at hp
  obtain ⟨a, ha, rfl⟩ := hp
  show isPageDict (assocFind (renumberWith off d).objects (shiftId off a)) = true
  rw [assocFind_renumber, isPageDict_remap]
  exact h a ha

/-! ### Per-document pool lemmas -/

theorem docPool_pairwise (d : SDoc) : List.Pairwise keyLt (docPool d) :=
  btExtend_pairwise _ (List.Pairwise.nil)

theorem keys_of_pagePairs (d : SDoc) :
    btKeys (d.pages.map (fun id => (id, getObjD d.objects id))) = d.pages := by
  have hfun : (Prod.fst ∘ fun id : ObjectId => (id, getObjD d.objects id)) =
      fun id => id := rfl
  rw [btKeys, List.map_map, hfun, List.map_id']

theorem docPool_perm {d : SDoc} (h : d.pages.Nodup) :
    (docPool d).Perm (d.pages.map (fun id => (id, getObjD d.objects id))) := by
  have := @btExtend_perm [] (d.pages.map (fun id => (id, getObjD d.objects id)))
    (by rw [keys_of_pagePairs]; exact h) (by simp [btKeys])
  simpa [docPool] using this

theorem btKeys_docPool_perm {d : SDoc} (h : d.pages.Nodup) :
    (btKeys (docPool d)).Perm d.pages := by
  have h1 := (docPool_perm h).map Prod.fst
  rw [show List.map Prod.fst (d.pages.map (fun id => (id, getObjD d.objects id))) =
      btKeys (d.pages.map (fun id => (id, getObjD d.objects id))) from rfl,
    keys_of_pagePairs] at h1
  exact h1

theorem docPool_length {d : SDoc} (h : d.pages.Nodup) :
    (docPool d).length = d.pages.length := by
  have := (docPool_perm h).length_eq
  simpa using this

theorem mem_docPool {d : SDoc} {e : ObjectId × Obj} (h : d.pages.Nodup)
    (he : e ∈ docPool d) : e.1 ∈ d.pages ∧ e.2 = getObjD d.objects e.1 := by
  have := (docPool_perm h).mem_iff.mp he
  simp only [List.mem_map] at this
  obtain ⟨a, ha, hae⟩ := this
  constructor
  · rw [← hae]; exact ha
  · rw [← hae]

theorem docPool_nil {d : SDoc} (h : d.pages = []) : docPool d = [] := by
  simp [docPool, h, btExtend]

/-! ### The first loop of `merge_pdf`: structure theorem -/

/-- Invariant of the loop state: the accumulated maps are sorted and every
accumulated object number lies strictly below the running counter. -/
def stInv (st : LoopSt) : Prop :=
  List.Pairwise keyLt st.documentsPages ∧
  List.Pairwise keyLt st.documentsObjects ∧
  (∀ e ∈ st.documentsPages, e.1.1 < st.maxId) ∧
  (∀ e ∈ st.documentsObjects, e.1.1 < st.maxId)

theorem stInv_init : stInv initSt := by
  refine ⟨List.Pairwise.nil, List.Pairwise.nil, ?_, ?_⟩ <;>
    (intro e he; simp [initSt] at he)

theorem step_spec {st : LoopSt} {d : SDoc} (hwf : WFDoc d) (hinv : stInv st) :
    (step st d).documentsObjects =
        st.documentsObjects ++ (renumberWith st.maxId d).objects ∧
    (step st d).documentsPages =
        st.documentsPages ++ docPool (renumberWith st.maxId d) ∧
    (step st d).bookmarks =
      st.bookmarks ++ (match (renumberWith st.maxId d).pages with
                       | [] => []
                       | p :: _ => [Bookmark.mk ("Page_" ++ toString st.pageNum) 0 p]) ∧
    (step st d).pageNum = (match (renumberWith st.maxId d).pages with
                           | [] => st.pageNum
                           | _ :: _ => st.pageNum + 1) ∧
    (step st d).maxId = (renumberWith st.maxId d).maxId + 1 ∧
    stInv (step st d) := by
  obtain ⟨hppw, hopw, hpbd, hobd⟩ := hinv
  have hwf1 : WFDoc (renumberWith st.maxId d) := WFDoc_renumber st.maxId hwf
  obtain ⟨h1pw, h1nd, h1bo, h1bp⟩ := hwf1
  -- the extended object map is an append
  have hocross : ∀ a ∈ st.documentsObjects, ∀ b ∈ (renumberWith st.maxId d).objects,
      idLt a.1 b.1 := by
    intro a ha b hb
    have h1 := hobd a ha
    have h2 := renumber_objects_lb st.maxId d b hb
    exact Or.inl (by omega)
  have hoapp : btExtend st.documentsObjects (renumberWith st.maxId d).objects =
      st.documentsObjects ++ (renumberWith st.maxId d).objects :=
    btExtend_append hocross h1pw
  -- the extended pool is an append
  have hpoolmem : ∀ b ∈ docPool (renumberWith st.maxId d),
      b.1 ∈ (renumberWith st.maxId d).pages :=
    fun b hb => (mem_docPool h1nd hb).1
  have hpcross : ∀ a ∈ st.documentsPages, ∀ b ∈ docPool (renumberWith st.maxId d),
      idLt a.1 b.1 := by
    intro a ha b hb
    have h1 := hpbd a ha
    have h2 := renumber_pages_lb st.maxId d b.1 (hpoolmem b hb)
    exact Or.inl (by omega)
  have hpapp : btExtend st.documentsPages (docPool (renumberWith st.maxId d)) =
      st.documentsPages ++ docPool (renumberWith st.maxId d) :=
    btExtend_append hpcross (docPool_pairwise _)
  have hinv' : stInv (step st d) := by
    refine ⟨?_, ?_, ?_, ?_⟩
    · show List.Pairwise keyLt (step st d).documentsPages
      have : (step st d).documentsPages =
          btExtend st.documentsPages (docPool (renumberWith st.maxId d)) := rfl
      rw [this]
      exact btExtend_pairwise _ hppw
    · show List.Pairwise keyLt (step st d).documentsObjects
      have : (step st d).documentsObjects =
          btExtend st.documentsObjects (renumberWith st.maxId d).objects := rfl
      rw [this]
      exact btExtend_pairwise _ hopw
    · show ∀ e ∈ (step st d).documentsPages, e.1.1 < (step st d).maxId
      have heq : (step st d).documentsPages =
          st.documentsPages ++ docPool (renumberWith st.maxId d) := hpapp
      have hmx : (step st d).maxId = d.maxId + st.maxId + 1 := rfl
      rw [heq, hmx]
      intro e he
      rcases List.mem_append.mp he with h' | h'
      · have := hpbd e h'
        omega
      · have h2 := h1bp e.1 (hpoolmem e h')
        have : (renumberWith st.maxId d).maxId = d.maxId + st.maxId := rfl
        omega
    · show ∀ e ∈ (step st d).documentsObjects, e.1.1 < (step st d).maxId
      have heq : (step st d).documentsObjects =
          st.documentsObjects ++ (renumberWith st.maxId d).objects := hoapp
      have hmx : (step st d).maxId = d.maxId + st.maxId + 1 := rfl
      rw [heq, hmx]
      intro e he
      rcases List.mem_append.mp he with h' | h'
      · have := hobd e h'
        omega
      · have h2 := h1bo e h'
        have : (renumberWith st.maxId d).maxId = d.maxId + st.maxId := rfl
        omega
  refine ⟨hoapp, hpapp, ?_, ?_, rfl, hinv'⟩
  · show (match (renumberWith st.maxId d).pages with
          | [] => (st.bookmarks, st.pageNum)
          | p :: _ => (st.bookmarks ++ [Bookmark.mk ("Page_" ++ toString st.pageNum) 0 p],
                       st.pageNum + 1)).1 = _
    cases (renumberWith st.maxId d).pages with
    | nil => simp
    | cons p t => simp
  · show (match (renumberWith st.maxId d).pages with
          | [] => (st.bookmarks, st.pageNum)
          | p :: _ => (st.bookmarks ++ [Bookmark.mk ("Page_" ++ toString st.pageNum) 0 p],
                       st.pageNum + 1)).2 = _
    cases (renumberWith st.maxId d).pages with
    | nil => rfl
    | cons p t => rfl

theorem mergeLoop_spec : ∀ (ds : List SDoc) (st : LoopSt),
    (∀ d ∈ ds, WFDoc d) → stInv st →
    (mergeLoop st ds).documentsObjects =
        st.documentsObjects ++ ((renumberAll st.maxId ds).map SDoc.objects).flatten ∧
    (mergeLoop st ds).documentsPages =
        st.documentsPages ++ ((renumberAll st.maxId ds).map docPool).flatten ∧
    (mergeLoop st ds).bookmarks =
        st.bookmarks ++ pendingBookmarks st.pageNum (renumberAll st.maxId ds) ∧
    stInv (mergeLoop st ds) := by
  intro ds
  induction ds with
  | nil =>
    intro st _ hinv
    refine ⟨?_, ?_, ?_, hinv⟩ <;> simp [mergeLoop, renumberAll, pendingBookmarks]
  | cons d t ih =>
    intro st hwf hinv
    have hwfd : WFDoc d := hwf d (List.mem_cons_self _ _)
    have hwft : ∀ d' ∈ t, WFDoc d' := fun d' hd' => hwf d' (List.mem_cons_of_mem _ hd')
    obtain ⟨ho, hp, hb, hpn, hmx, hinv'⟩ := step_spec hwfd hinv
    obtain ⟨iho, ihp, ihb, ihinv⟩ := ih (step st d) hwft hinv'
    have hra : renumberAll st.maxId (d :: t) =
        renumberWith st.maxId d ::
          renumberAll ((renumberWith st.maxId d).maxId + 1) t := rfl
    have hloop : mergeLoop st (d :: t) = mergeLoop (step st d) t := rfl
    refine ⟨?_, ?_, ?_, ?_⟩
    · rw [hloop, iho, ho, hra, hmx]
      simp [List.append_assoc]
    · rw [hloop, ihp, hp, hra, hmx]
      simp [List.append_assoc]
    · rw [hloop, ihb, hb, hra, hmx, hpn]
      cases hpg : (renumberWith st.maxId d).pages with
      | nil => simp [pendingBookmarks, hpg]
      | cons p rest => simp [pendingBookmarks, hpg]
    · rw [hloop]
      exact ihinv

/-! ### Collector characterization -/

/-- The "other objects" accumulation of the classification loop, in isolation. -/
def othersFold (t : List (ObjectId × Obj)) (es : List (ObjectId × Obj)) :
    List (ObjectId × Obj) :=
  es.foldl (fun t e => if isOtherB e then btInsert e.1 e.2 t else t) t

/-- The catalog selection of the classification loop, in isolation: a Catalog
entry keeps the first-seen identifier and stores the current object. -/
def catStep (a : Option (ObjectId × Obj)) (e : ObjectId × Obj) :
    Option (ObjectId × Obj) :=
  if isCatalogB e then
    let kept := match a with | some (id, _) => id | none => e.1
    some (kept, e.2)
  else a

/-- Catalog accumulation over an entry sequence. -/
def catalogAcc (a : Option (ObjectId × Obj)) (es : List (ObjectId × Obj)) :
    Option (ObjectId × Obj) :=
  es.foldl catStep a

/-- The Pages selection of the classification loop, in isolation. -/
def pagStep (a : Option (ObjectId × Obj)) (e : ObjectId × Obj) :
    Option (ObjectId × Obj) :=
  if typeNameD e.2 = "Pages" then
    match asDict e.2 with
    | some dct =>
      let merged :=
        match a with
        | some (_, old) =>
          match asDict old with
          | some oldD => dictExtend dct oldD
          | none => dct
        | none => dct
      let kept := match a with | some (id, _) => id | none => e.1
      some (kept, Obj.dictionary merged)
    | none => a
  else a

/-- Pages accumulation over an entry sequence. -/
def pagesAcc (a : Option (ObjectId × Obj)) (es : List (ObjectId × Obj)) :
    Option (ObjectId × Obj) :=
  es.foldl pagStep a

theorem collectStep_others (c : Collect) (e : ObjectId × Obj) :
    (collectStep c e).others =
      if isOtherB e then btInsert e.1 e.2 c.others else c.others := by
  unfold collectStep isOtherB
  by_cases h1 : typeNameD e.2 = "Catalog"
  · simp [h1]
  · by_cases h2 : typeNameD e.2 = "Pages"
    · simp only [if_neg h1, if_pos h2, h1, h2]
      cases asDict e.2 <;> simp
    · by_cases h3 : typeNameD e.2 = "Page"
      · simp [h1, h2, h3]
      · by_cases h4 : typeNameD e.2 = "Outlines"
        · simp [h1, h2, h3, h4]
        · by_cases h5 : typeNameD e.2 = "Outline"
          · simp [h1, h2, h3, h4, h5]
          · simp [h1, h2, h3, h4, h5]

theorem collectStep_catalog (c : Collect) (e : ObjectId × Obj) :
    (collectStep c e).catalogObject = catStep c.catalogObject e := by
  unfold collectStep catStep isCatalogB
  by_cases h1 : typeNameD e.2 = "Catalog"
  · simp [h1]
  · by_cases h2 : typeNameD e.2 = "Pages"
    · simp only [if_neg h1, if_pos h2, h1, decide_eq_true_eq, if_neg h1]
      cases asDict e.2 <;> simp
    · by_cases h3 : typeNameD e.2 = "Page"
      · simp [h1, h2, h3]
      · by_cases h4 : typeNameD e.2 = "Outlines"
        · simp [h1, h2, h3, h4]
        · by_cases h5 : typeNameD e.2 = "Outline"
          · simp [h1, h2, h3, h4, h5]
          · simp [h1, h2, h3, h4, h5]

theorem collectStep_pages (c : Collect) (e : ObjectId × Obj) :
    (collectStep c e).pagesObject = pagStep c.pagesObject e := by
  unfold collectStep pagStep
  by_cases h1 : typeNameD e.2 = "Catalog"
  · have h2 : typeNameD e.2 ≠ "Pages" := by rw [h1]; decide
    simp [h1, h2]
  · by_cases h2 : typeNameD e.2 = "Pages"
    · simp only [if_neg h1, if_pos h2]
      cases asDict e.2 <;> simp
    · by_cases h3 : typeNameD e.2 = "Page"
      · simp [h1, h2, h3]
      · by_cases h4 : typeNameD e.2 = "Outlines"
        · simp [h1, h2, h3, h4]
        · by_cases h5 : typeNameD e.2 = "Outline"
          · simp [h1, h2, h3, h4, h5]
          · simp [h1, h2, h3, h4, h5]

theorem collect_proj : ∀ (es : List (ObjectId × Obj)) (c : Collect),
    (es.foldl collectStep c).others = othersFold c.others es ∧
    (es.foldl collectStep c).catalogObject = catalogAcc c.catalogObject es ∧
    (es.foldl collectStep c).pagesObject = pagesAcc c.pagesObject es
  | [], c => ⟨rfl, rfl, rfl⟩
  | e :: t, c => by
    obtain ⟨ho, hc, hp⟩ := collect_proj t (collectStep c e)
    refine ⟨?_, ?_, ?_⟩
    · show (t.foldl collectStep (collectStep c e)).others = _
      rw [ho, collectStep_others]
      rfl
    · show (t.foldl collectStep (collectStep c e)).catalogObject = _
      rw [hc, collectStep_catalog]
      rfl
    · show (t.foldl collectStep (collectStep c e)).pagesObject = _
      rw [hp, collectStep_pages]
      rfl

theorem assocFind_othersFold_of_not_key :
    ∀ (es : List (ObjectId × Obj)) (t : List (ObjectId × Obj)) (k : ObjectId),
    (∀ e ∈ es, e.1 ≠ k) → assocFind (othersFold t es) k = assocFind t k
  | [], t, k, _ => rfl
  | e :: es, t, k, h => by
    show assocFind (othersFold (if isOtherB e then btInsert e.1 e.2 t else t) es) k = _
    rw [assocFind_othersFold_of_not_key es _ k
      (fun e' he' => h e' (List.mem_cons_of_mem _ he'))]
    by_cases ho : isOtherB e
    · rw [if_pos ho,
        assocFind_btInsert_ne e.2 t (fun hc => h e (List.mem_cons_self _ _) hc.symm)]
    · rw [if_neg ho]

theorem assocFind_othersFold_mem :
    ∀ (es : List (ObjectId × Obj)) (t : List (ObjectId × Obj)) (e : ObjectId × Obj),
    e ∈ es → isOtherB e = true → (btKeys es).Nodup →
    assocFind (othersFold t es) e.1 = some e.2
  | [], _, e, he, _, _ => by simp at he
  | e0 :: es, t, e, he, ho, hnd => by
    simp only [btKeys, List.map_cons, List.nodup_cons] at hnd
    obtain ⟨hkn, hndt⟩ := hnd
    show assocFind (othersFold (if isOtherB e0 then btInsert e0.1 e0.2 t else t) es) e.1
        = some e.2
    rcases List.mem_cons.mp he with h' | h'
    · subst h'
      rw [assocFind_othersFold_of_not_key es _ e.1
        (fun e' he' hc => hkn (hc ▸ List.mem_map_of_mem Prod.fst he'))]
      rw [if_pos ho]
      exact assocFind_btInsert_self e.1 e.2 t
    · exact assocFind_othersFold_mem es _ e h' ho hndt

theorem catalogAcc_some : ∀ (es : List (ObjectId × Obj)) (id : ObjectId) (o : Obj),
    ∃ o', catalogAcc (some (id, o)) es = some (id, o')
  | [], id, o => ⟨o, rfl⟩
  | e :: t, id, o => by
    show ∃ o', catalogAcc (catStep (some (id, o)) e) t = some (id, o')
    by_cases h : isCatalogB e
    · have : catStep (some (id, o)) e = some (id, e.2) := by simp [catStep, h]
      rw [this]
      exact catalogAcc_some t id e.2
    · have : catStep (some (id, o)) e = some (id, o) := by simp [catStep, h]
      rw [this]
      exact catalogAcc_some t id o

theorem catalogAcc_id : ∀ (es : List (ObjectId × Obj)),
    (catalogAcc none es).map Prod.fst = (es.find? isCatalogB).map Prod.fst
  | [] => rfl
  | e :: t => by
    by_cases h : isCatalogB e
    · have hstep : catStep none e = some (e.1, e.2) := by simp [catStep, h]
      show (catalogAcc (catStep none e) t).map Prod.fst = _
      rw [hstep, List.find?_cons_of_pos _ h]
      obtain ⟨o', ho'⟩ := catalogAcc_some t e.1 e.2
      rw [ho']
      rfl
    · have hstep : catStep none e = none := by simp [catStep, h]
      show (catalogAcc (catStep none e) t).map Prod.fst = _
      rw [hstep, List.find?_cons_of_neg _ (by simpa using h)]
      exact catalogAcc_id t

theorem catalogAcc_obj : ∀ (es : List (ObjectId × Obj)) (a : Option (ObjectId × Obj)),
    (catalogAcc a es).map Prod.snd =
      match (es.filter isCatalogB).getLast? with
      | some f => some f.2
      | none => a.map Prod.snd
  | [], a => by cases a <;> rfl
  | e :: t, a => by
    show (catalogAcc (catStep a e) t).map Prod.snd = _
    rw [catalogAcc_obj t (catStep a e)]
    by_cases h : isCatalogB e
    · rw [List.filter_cons_of_pos h]
      cases hft : (t.filter isCatalogB).getLast? with
      | some f =>
        have : ((e :: t.filter isCatalogB).getLast?) = some f := by
          cases hfil : t.filter isCatalogB with
          | nil => rw [hfil] at hft; simp at hft
          | cons b l =>
            rw [hfil] at hft
            rw [List.getLast?_cons_cons, hft]
        rw [this]
      | none =>
        have hnil : t.filter isCatalogB = [] := by
          cases hfil : t.filter isCatalogB with
          | nil => rfl
          | cons b l => rw [hfil] at hft; simp [List.getLast?] at hft
        rw [hnil]
        have : catStep a e = some ((match a with
            | some (id, _) => id
            | none => e.1), e.2) := by simp [catStep, h]
        rw [this]
        rfl
    · rw [List.filter_cons_of_neg (by simpa using h)]
      have : catStep a e = a := by simp [catStep, h]
      rw [this]

theorem pagesAcc_some : ∀ (es : List (ObjectId × Obj)) (id : ObjectId) (o : Obj),
    ∃ o', pagesAcc (some (id, o)) es = some (id, o')
  | [], id, o => ⟨o, rfl⟩
  | e :: t, id, o => by
    show ∃ o', pagesAcc (pagStep (some (id, o)) e) t = some (id, o')
    by_cases h1 : typeNameD e.2 = "Pages"
    · cases hd : asDict e.2 with
      | some dct =>
        have : ∃ m, pagStep (some (id, o)) e = some (id, Obj.dictionary m) := by
          simp only [pagStep, if_pos h1, hd]
          exact ⟨_, rfl⟩
        obtain ⟨m, hm⟩ := this
        rw [hm]
        exact pagesAcc_some t id (Obj.dictionary m)
      | none =>
        have : pagStep (some (id, o)) e = some (id, o) := by
          simp [pagStep, h1, hd]
        rw [this]
        exact pagesAcc_some t id o
    · have : pagStep (some (id, o)) e = some (id, o) := by simp [pagStep, h1]
      rw [this]
      exact pagesAcc_some t id o

theorem pagesAcc_id : ∀ (es : List (ObjectId × Obj)),
    (pagesAcc none es).map Prod.fst = (es.find? isPagesDictB).map Prod.fst
  | [] => rfl
  | e :: t => by
    show (pagesAcc (pagStep none e) t).map Prod.fst = _
    by_cases h1 : typeNameD e.2 = "Pages"
    · cases hd : asDict e.2 with
      | some dct =>
        have hpos : isPagesDictB e = true := by
          simp [isPagesDictB, h1, hd]
        have hstep : pagStep none e = some (e.1, Obj.dictionary dct) := by
          simp [pagStep, h1, hd]
        rw [hstep, List.find?_cons_of_pos _ hpos]
        obtain ⟨o', ho'⟩ := pagesAcc_some t e.1 (Obj.dictionary dct)
        rw [ho']
        rfl
      | none =>
        have hneg : ¬ isPagesDictB e = true := by
          simp [isPagesDictB, h1, hd]
        have hstep : pagStep none e = none := by simp [pagStep, h1, hd]
        rw [hstep, List.find?_cons_of_neg _ (by simpa using hneg)]
        exact pagesAcc_id t
    · have hneg : ¬ isPagesDictB e = true := by simp [isPagesDictB, h1]
      have hstep : pagStep none e = none := by simp [pagStep, h1]
      rw [hstep, List.find?_cons_of_neg _ (by simpa using hneg)]
      exact pagesAcc_id t

/-- First-wins fold of the Pages dictionaries into the first one. -/
def foldNewOld (D : DictEntries) (ds : List DictEntries) : DictEntries :=
  ds.foldl (fun acc dnew => dictExtend dnew acc) D

theorem pagesAcc_dict : ∀ (es : List (ObjectId × Obj)) (id : ObjectId) (D : DictEntries),
    pagesAcc (some (id, Obj.dictionary D)) es =
      some (id, Obj.dictionary (foldNewOld D (pagesDicts es)))
  | [], id, D => rfl
  | e :: t, id, D => by
    show pagesAcc (pagStep (some (id, Obj.dictionary D)) e) t = _
    by_cases h1 : typeNameD e.2 = "Pages"
    · cases hd : asDict e.2 with
      | some dct =>
        have hpos : isPagesDictB e = true := by simp [isPagesDictB, h1, hd]
        have hstep : pagStep (some (id, Obj.dictionary D)) e =
            some (id, Obj.dictionary (dictExtend dct D)) := by
          have hold : asDict (Obj.dictionary D) = some D := rfl
          simp only [pagStep, if_pos h1, hd, hold]
        have hpd : pagesDicts (e :: t) = dct :: pagesDicts t := by
          simp [pagesDicts, List.filter_cons, hpos, hd]
        rw [hstep, pagesAcc_dict t id (dictExtend dct D), hpd]
        rfl
      | none =>
        have hneg : isPagesDictB e = false := by simp [isPagesDictB, h1, hd]
        have hstep : pagStep (some (id, Obj.dictionary D)) e =
            some (id, Obj.dictionary D) := by simp [pagStep, h1, hd]
        have hpd : pagesDicts (e :: t) = pagesDicts t := by
          simp [pagesDicts, List.filter_cons, hneg]
        rw [hstep, pagesAcc_dict t id D, hpd]
    · have hneg : isPagesDictB e = false := by simp [isPagesDictB, h1]
      have hstep : pagStep (some (id, Obj.dictionary D)) e =
          some (id, Obj.dictionary D) := by simp [pagStep, h1]
      have hpd : pagesDicts (e :: t) = pagesDicts t := by
        simp [pagesDicts, List.filter_cons, hneg]
      rw [hstep, pagesAcc_dict t id D, hpd]

theorem pagesAcc_none_char : ∀ (es : List (ObjectId × Obj)),
    es.find? isPagesDictB = none → pagesAcc none es = none
  | [], _ => rfl
  | e :: t, h => by
    rw [List.find?_cons] at h
    show pagesAcc (pagStep none e) t = none
    cases hp : isPagesDictB e with
    | true => rw [hp] at h; simp at h
    | false =>
      rw [hp] at h
      simp only at h
      have hstep : pagStep none e = none := by
        by_cases h1 : typeNameD e.2 = "Pages"
        · cases hd : asDict e.2 with
          | some dct => simp [isPagesDictB, h1, hd] at hp
          | none => simp [pagStep, h1, hd]
        · simp [pagStep, h1]
      rw [hstep]
      exact pagesAcc_none_char t h

theorem pagesAcc_closed : ∀ (es : List (ObjectId × Obj)) (f : ObjectId × Obj),
    es.find? isPagesDictB = some f →
    ∃ dct, asDict f.2 = some dct ∧
      pagesAcc none es = some (f.1, Obj.dictionary (foldNewOld dct (pagesDicts es).tail)) ∧
      pagesDicts es = dct :: (pagesDicts es).tail
  | [], f, h => by simp at h
  | e :: t, f, h => by
    show ∃ dct, _ ∧ pagesAcc (pagStep none e) t = _ ∧ _
    cases hp : isPagesDictB e with
    | true =>
      have hf : f = e := by
        rw [List.find?_cons_of_pos _ hp] at h
        exact (Option.some.inj h).symm
      subst hf
      have h1 : typeNameD f.2 = "Pages" := by
        simp [isPagesDictB] at hp
        exact hp.1
      obtain ⟨dct, hd⟩ : ∃ dct, asDict f.2 = some dct := by
        simp [isPagesDictB] at hp
        exact Option.isSome_iff_exists.mp hp.2
      refine ⟨dct, hd, ?_, ?_⟩
      · have hstep : pagStep none f = some (f.1, Obj.dictionary dct) := by
          simp [pagStep, h1, hd]
        have hpd : pagesDicts (f :: t) = dct :: pagesDicts t := by
          simp [pagesDicts, List.filter_cons, hp, hd]
        rw [hstep, pagesAcc_dict t f.1 dct, hpd]
        rfl
      · simp [pagesDicts, List.filter_cons, hp, hd]
    | false =>
      rw [List.find?_cons_of_neg _ (by simp [hp])] at h
      have hstep : pagStep none e = none := by
        by_cases h1 : typeNameD e.2 = "Pages"
        · cases hd : asDict e.2 with
          | some dct => simp [isPagesDictB, h1, hd] at hp
          | none => simp [pagStep, h1, hd]
        · simp [pagStep, h1]
      have hpd : pagesDicts (e :: t) = pagesDicts t := by
        simp [pagesDicts, List.filter_cons, hp]
      obtain ⟨dct, hd, hacc, htl⟩ := pagesAcc_closed t f h
      refine ⟨dct, hd, ?_, ?_⟩
      · rw [hstep, hpd, hacc]
      · rw [hpd]; exact htl

/-! ### Dictionary key-set lemmas and the first-wins fold -/

theorem mem_dictKeys_dictSet : ∀ (d : DictEntries) (k : String) (v : Obj) (x : String),
    x ∈ dictKeys (dictSet d k v) → x = k ∨ x ∈ dictKeys d
  | .nil, k, v, x, h => by simpa [dictSet, dictKeys] using h
  | .cons k0 v0 t, k, v, x, h => by
    by_cases h0 : k0 = k
    · simp only [dictSet, if_pos h0, dictKeys, List.mem_cons] at h
      rcases h with h | h
      · exact Or.inl h
      · exact Or.inr (by simp [dictKeys, h])
    · simp only [dictSet, if_neg h0, dictKeys, List.mem_cons] at h
      rcases h with h | h
      · exact Or.inr (by simp [dictKeys, h])
      · rcases mem_dictKeys_dictSet t k v x h with h' | h'
        · exact Or.inl h'
        · exact Or.inr (by simp [dictKeys, h'])

theorem dictKeys_dictSet_nodup : ∀ (d : DictEntries) (k : String) (v : Obj),
    (dictKeys d).Nodup → (dictKeys (dictSet d k v)).Nodup
  | .nil, k, v, _ => by simp [dictSet, dictKeys]
  | .cons k0 v0 t, k, v, h => by
    simp only [dictKeys, List.nodup_cons] at h
    obtain ⟨hk0, ht⟩ := h
    by_cases h0 : k0 = k
    · subst h0
      simp only [dictSet, if_pos rfl, dictKeys, List.nodup_cons]
      exact ⟨hk0, ht⟩
    · simp only [dictSet, if_neg h0, dictKeys, List.nodup_cons]
      refine ⟨?_, dictKeys_dictSet_nodup t k v ht⟩
      intro hc
      rcases mem_dictKeys_dictSet t k v k0 hc with h' | h'
      · exact h0 h'
      · exact hk0 h'

theorem dictKeys_dictExtend_nodup : ∀ (other self : DictEntries),
    (dictKeys self).Nodup → (dictKeys (dictExtend self other)).Nodup
  | .nil, _, h => h
  | .cons k v t, self, h =>
    dictKeys_dictExtend_nodup t (dictSet self k v) (dictKeys_dictSet_nodup self k v h)

theorem dictGet_foldNewOld : ∀ (ds : List DictEntries) (D : DictEntries) (k : String),
    (dictKeys D).Nodup → (∀ d ∈ ds, (dictKeys d).Nodup) →
    dictGet (foldNewOld D ds) k =
      match dictGet D k with
      | some v => some v
      | none => firstDefined ds k
  | [], D, k, _, _ => by
    cases h : dictGet D k <;> simp [foldNewOld, firstDefined, h]
  | d :: t, D, k, hD, hds => by
    have hd : (dictKeys d).Nodup := hds d (List.mem_cons_self _ _)
    have ht : ∀ d' ∈ t, (dictKeys d').Nodup :=
      fun d' h' => hds d' (List.mem_cons_of_mem _ h')
    show dictGet (foldNewOld (dictExtend d D) t) k = _
    rw [dictGet_foldNewOld t (dictExtend d D) k
      (dictKeys_dictExtend_nodup D d hd) ht]
    rw [dictGet_dictExtend D d k hD]
    cases hDk : dictGet D k with
    | some v => simp
    | none =>
      cases hdk : dictGet d k with
      | some w => simp [firstDefined, hdk]
      | none => simp [firstDefined, hdk]

/-! ### Page re-parenting and rebuild lookups -/

theorem withParents_cons (pid : ObjectId) (base : List (ObjectId × Obj))
    (e : ObjectId × Obj) (pool : List (ObjectId × Obj)) :
    withParents pid base (e :: pool) =
      withParents pid
        (match asDict e.2 with
         | some dct =>
           btInsert e.1 (Obj.dictionary (dictSet dct "Parent" (Obj.reference pid))) base
         | none => base)
        pool := rfl

theorem assocFind_withParents_of_not_key :
    ∀ (pool : List (ObjectId × Obj)) (base : List (ObjectId × Obj)) (pid k : ObjectId),
    (∀ e ∈ pool, e.1 ≠ k) →
    assocFind (withParents pid base pool) k = assocFind base k
  | [], _, _, _, _ => rfl
  | e :: pool, base, pid, k, h => by
    rw [withParents_cons]
    rw [assocFind_withParents_of_not_key pool _ pid k
      (fun e' he' => h e' (List.mem_cons_of_mem _ he'))]
    cases hd : asDict e.2 with
    | some dct =>
      exact assocFind_btInsert_ne _ base
        (fun hc => h e (List.mem_cons_self _ _) hc.symm)
    | none => rfl

theorem assocFind_withParents_mem :
    ∀ (pool : List (ObjectId × Obj)) (base : List (ObjectId × Obj)) (pid : ObjectId)
      (e : ObjectId × Obj) (dct : DictEntries),
    e ∈ pool → (btKeys pool).Nodup → asDict e.2 = some dct →
    assocFind (withParents pid base pool) e.1 =
      some (Obj.dictionary (dictSet dct "Parent" (Obj.reference pid)))
  | [], _, _, e, _, he, _, _ => by simp at he
  | e0 :: pool, base, pid, e, dct, he, hnd, hd => by
    simp only [btKeys, List.map_cons, List.nodup_cons] at hnd
    obtain ⟨hkn, hndt⟩ := hnd
    rw [withParents_cons]
    rcases List.mem_cons.mp he with h' | h'
    · subst h'
      rw [assocFind_withParents_of_not_key pool _ pid e.1
        (fun e' he' hc => hkn (hc ▸ List.mem_map_of_mem Prod.fst he'))]
      rw [hd]
      exact assocFind_btInsert_self _ _ base
    · exact assocFind_withParents_mem pool _ pid e dct h' hndt hd

/-- The rebuilt Pages dictionary inserted by `rebuildPages`. -/
def rebuiltPagesDict (pool : List (ObjectId × Obj)) (dct : DictEntries) : DictEntries :=
  dictSet
    (dictSet dct "Count" (Obj.integer (Int.ofNat (pool.length % u32Mod))))
    "Kids"
    (Obj.array (objArr (pool.map (fun e => Obj.reference e.1))))

theorem assocFind_rebuildPages_self {pagesObj : ObjectId × Obj} {dct : DictEntries}
    (pool tbl : List (ObjectId × Obj)) (hd : asDict pagesObj.2 = some dct) :
    assocFind (rebuildPages pool pagesObj tbl) pagesObj.1 =
      some (Obj.dictionary (rebuiltPagesDict pool dct)) := by
  unfold rebuildPages
  rw [hd]
  exact assocFind_btInsert_self _ _ tbl

theorem assocFind_rebuildPages_ne {pagesObj : ObjectId × Obj} {k : ObjectId}
    (pool tbl : List (ObjectId × Obj)) (h : k ≠ pagesObj.1) :
    assocFind (rebuildPages pool pagesObj tbl) k = assocFind tbl k := by
  unfold rebuildPages
  cases asDict pagesObj.2 with
  | some dct => exact assocFind_btInsert_ne _ tbl h
  | none => rfl

/-- The rebuilt Catalog dictionary inserted by `rebuildCatalog`. -/
def rebuiltCatalogDict (pid : ObjectId) (dct : DictEntries) : DictEntries :=
  dictRemove (dictSet dct "Pages" (Obj.reference pid)) "Outlines"

theorem assocFind_rebuildCatalog_self {catObj : ObjectId × Obj} {dct : DictEntries}
    (pid : ObjectId) (tbl : List (ObjectId × Obj)) (hd : asDict catObj.2 = some dct) :
    assocFind (rebuildCatalog pid catObj tbl) catObj.1 =
      some (Obj.dictionary (rebuiltCatalogDict pid dct)) := by
  unfold rebuildCatalog
  rw [hd]
  exact assocFind_btInsert_self _ _ tbl

theorem assocFind_rebuildCatalog_ne {catObj : ObjectId × Obj} {k : ObjectId}
    (pid : ObjectId) (tbl : List (ObjectId × Obj)) (h : k ≠ catObj.1) :
    assocFind (rebuildCatalog pid catObj tbl) k = assocFind tbl k := by
  unfold rebuildCatalog
  cases asDict catObj.2 with
  | some dct => exact assocFind_btInsert_ne _ tbl h
  | none => rfl

/-! ### Characterization of `merge_pdf` through the accumulators -/

theorem collect_init (es : List (ObjectId × Obj)) :
    (es.foldl collectStep ⟨none, none, []⟩).others = othersFold [] es ∧
    (es.foldl collectStep ⟨none, none, []⟩).catalogObject = catalogAcc none es ∧
    (es.foldl collectStep ⟨none, none, []⟩).pagesObject = pagesAcc none es :=
  collect_proj es ⟨none, none, []⟩

theorem merge_pdf_eq (documents : List SDoc) :
    merge_pdf documents =
      match pagesAcc none (mergeLoop initSt documents).documentsObjects with
      | none => (none, ["Pages root not found."])
      | some pagesObj =>
        match catalogAcc none (mergeLoop initSt documents).documentsObjects with
        | none => (none, ["Catalog root not found."])
        | some catObj =>
          (some (MergedDoc.mk
                  (rebuildCatalog pagesObj.1 catObj
                    (rebuildPages (mergeLoop initSt documents).documentsPages pagesObj
                      (withParents pagesObj.1
                        (othersFold [] (mergeLoop initSt documents).documentsObjects)
                        (mergeLoop initSt documents).documentsPages)))
                  (mergeLoop initSt documents).bookmarks
                  pagesObj.1 catObj.1 catObj.1), []) := by
  obtain ⟨ho, hc, hp⟩ := collect_init (mergeLoop initSt documents).documentsObjects
  show (match ((mergeLoop initSt documents).documentsObjects.foldl collectStep
          ⟨none, none, []⟩).pagesObject with
        | none => (none, ["Pages root not found."])
        | some pagesObj =>
          match ((mergeLoop initSt documents).documentsObjects.foldl collectStep
              ⟨none, none, []⟩).catalogObject with
          | none => (none, ["Catalog root not found."])
          | some catObj =>
            (some (MergedDoc.mk
                    (rebuildCatalog pagesObj.1 catObj
                      (rebuildPages (mergeLoop initSt documents).documentsPages pagesObj
                        (withParents pagesObj.1
                          ((mergeLoop initSt documents).documentsObjects.foldl collectStep
                            ⟨none, none, []⟩).others
                          (mergeLoop initSt documents).documentsPages)))
                    (mergeLoop initSt documents).bookmarks
                    pagesObj.1 catObj.1 catObj.1), [])) = _
  rw [hp, hc, ho]

/-- Destructuring of a successful merge. -/
theorem merge_success {documents : List SDoc} {m : MergedDoc}
    (hm : (merge_pdf documents).1 = some m) :
    ∃ pagesObj catObj,
      pagesAcc none (mergeLoop initSt documents).documentsObjects = some pagesObj ∧
      catalogAcc none (mergeLoop initSt documents).documentsObjects = some catObj ∧
      m = MergedDoc.mk
            (rebuildCatalog pagesObj.1 catObj
              (rebuildPages (mergeLoop initSt documents).documentsPages pagesObj
                (withParents pagesObj.1
                  (othersFold [] (mergeLoop initSt documents).documentsObjects)
                  (mergeLoop initSt documents).documentsPages)))
            (mergeLoop initSt documents).bookmarks
            pagesObj.1 catObj.1 catObj.1 := by
  rw [merge_pdf_eq] at hm
  cases hps : pagesAcc none (mergeLoop initSt documents).documentsObjects with
  | none => rw [hps] at hm; simp at hm
  | some pagesObj =>
    rw [hps] at hm
    cases hcs : catalogAcc none (mergeLoop initSt documents).documentsObjects with
    | none => rw [hcs] at hm; simp at hm
    | some catObj =>
      rw [hcs] at hm
      simp only at hm
      refine ⟨pagesObj, catObj, rfl, rfl, ?_⟩
      exact (Option.some.inj hm).symm

/-- The loop state of a run, in closed form. -/
theorem loop_closed {documents : List SDoc} (hwf : ∀ d ∈ documents, WFDoc d) :
    (mergeLoop initSt documents).documentsObjects = allObjectsOf documents ∧
    (mergeLoop initSt documents).documentsPages = poolOf documents ∧
    (mergeLoop initSt documents).bookmarks = pendingBookmarks 1 (rdocsOf documents) ∧
    stInv (mergeLoop initSt documents) := by
  obtain ⟨h1, h2, h3, h4⟩ := mergeLoop_spec documents initSt hwf stInv_init
  refine ⟨?_, ?_, ?_, h4⟩
  · rw [h1]
    show [] ++ _ = _
    rw [List.nil_append]
    rfl
  · rw [h2]
    show [] ++ _ = _
    rw [List.nil_append]
    rfl
  · rw [h3]
    show [] ++ _ = _
    rw [List.nil_append]
    rfl

theorem rdocs_wf : ∀ (documents : List SDoc) (start : Nat),
    (∀ d ∈ documents, WFDoc d) →
    ∀ d1 ∈ renumberAll start documents, WFDoc d1
  | [], _, _, d1, h1 => by simp [renumberAll] at h1
  | d :: t, start, hwf, d1, h1 => by
    rcases List.mem_cons.mp h1 with h' | h'
    · exact h' ▸ WFDoc_renumber start (hwf d (List.mem_cons_self _ _))
    · exact rdocs_wf t _ (fun d' hd' => hwf d' (List.mem_cons_of_mem _ hd')) d1 h'

theorem rdocs_typed : ∀ (documents : List SDoc) (start : Nat),
    (∀ d ∈ documents, PagesTyped d) →
    ∀ d1 ∈ renumberAll start documents, PagesTyped d1
  | [], _, _, d1, h1 => by simp [renumberAll] at h1
  | d :: t, start, htp, d1, h1 => by
    rcases List.mem_cons.mp h1 with h' | h'
    · exact h' ▸ PagesTyped_renumber start (htp d (List.mem_cons_self _ _))
    · exact rdocs_typed t _ (fun d' hd' => htp d' (List.mem_cons_of_mem _ hd')) d1 h'

/-! ### Role extraction and key uniqueness -/

theorem isPageDict_elim {o : Obj} (h : isPageDict (some o) = true) :
    ∃ dd, o = Obj.dictionary dd ∧ dictGet dd "Type" = some (Obj.name "Page") := by
  cases o with
  | dictionary dd =>
    refine ⟨dd, rfl, ?_⟩
    simp only [isPageDict] at h
    cases hty : dictGet dd "Type" with
    | none => rw [hty] at h; simp at h
    | some tv =>
      rw [hty] at h
      cases tv with
      | name s =>
        have : s = "Page" := by simpa using h
        rw [this]
      | null => simp at h
      | boolean b => simp at h
      | integer i => simp at h
      | text s => simp at h
      | array xs => simp at h
      | dictionary d2 => simp at h
      | stream d2 => simp at h
      | reference i => simp at h
  | null => simp [isPageDict] at h
  | boolean b => simp [isPageDict] at h
  | integer i => simp [isPageDict] at h
  | text s => simp [isPageDict] at h
  | name s => simp [isPageDict] at h
  | array xs => simp [isPageDict] at h
  | stream dd => simp [isPageDict] at h
  | reference i => simp [isPageDict] at h

theorem typeNameD_dict_of_name {dd : DictEntries} {s : String}
    (h : dictGet dd "Type" = some (Obj.name s)) :
    typeNameD (Obj.dictionary dd) = s := by
  have h1 : typeName (Obj.dictionary dd) = some s := by
    show (dictGet dd "Type").bind asName = some s
    rw [h]
    rfl
  unfold typeNameD
  rw [h1]
  rfl

theorem key_unique {es : List (ObjectId × Obj)} (hnd : (btKeys es).Nodup)
    {a b : ObjectId × Obj} (ha : a ∈ es) (hb : b ∈ es) (h : a.1 = b.1) : a = b :=
  List.inj_on_of_nodup_map (by simpa [btKeys] using hnd) ha hb h

theorem isPagesDictB_elim {e : ObjectId × Obj} (h : isPagesDictB e = true) :
    typeNameD e.2 = "Pages" ∧ ∃ dct, asDict e.2 = some dct := by
  simp only [isPagesDictB, Bool.and_eq_true, decide_eq_true_eq] at h
  exact ⟨h.1, Option.isSome_iff_exists.mp h.2⟩

theorem isCatalogB_elim {e : ObjectId × Obj} (h : isCatalogB e = true) :
    typeNameD e.2 = "Catalog" := by
  simpa [isCatalogB] using h

/-! ### Pool entries are Page-typed dictionaries -/

theorem mem_poolOf {documents : List SDoc} (hwf : ∀ d ∈ documents, WFDoc d)
    {e : ObjectId × Obj} (he : e ∈ poolOf documents) :
    ∃ d1 ∈ rdocsOf documents, e.1 ∈ d1.pages ∧ e.2 = getObjD d1.objects e.1 := by
  unfold poolOf at he
  rw [List.mem_flatten] at he
  obtain ⟨l, hl, hel⟩ := he
  rw [List.mem_map] at hl
  obtain ⟨d1, hd1, rfl⟩ := hl
  have hwf1 := rdocs_wf documents 1 hwf d1 hd1
  obtain ⟨_, hnd, _, _⟩ := hwf1
  obtain ⟨h1, h2⟩ := mem_docPool hnd hel
  exact ⟨d1, hd1, h1, h2⟩

theorem pool_entry_page {documents : List SDoc} (hwf : ∀ d ∈ documents, WFDoc d)
    (htp : ∀ d ∈ documents, PagesTyped d) {e : ObjectId × Obj}
    (he : e ∈ poolOf documents) :
    ∃ dd, e.2 = Obj.dictionary dd ∧ dictGet dd "Type" = some (Obj.name "Page") ∧
      (e.1, e.2) ∈ allObjectsOf documents := by
  obtain ⟨d1, hd1, hpg, hval⟩ := mem_poolOf hwf he
  have htp1 := rdocs_typed documents 1 htp d1 hd1
  have hpd := htp1 e.1 hpg
  cases hf : assocFind d1.objects e.1 with
  | none => rw [hf] at hpd; simp [isPageDict] at hpd
  | some o =>
    rw [hf] at hpd
    obtain ⟨dd, rfl, hty⟩ := isPageDict_elim hpd
    have hval' : e.2 = Obj.dictionary dd := by
      rw [hval]
      unfold getObjD
      rw [hf]
      rfl
    refine ⟨dd, hval', hty, ?_⟩
    have hmem := assocFind_mem hf
    have : (e.1, e.2) ∈ d1.objects := by rw [hval']; exact hmem
    unfold allObjectsOf
    rw [List.mem_flatten]
    exact ⟨d1.objects, List.mem_map_of_mem SDoc.objects hd1, this⟩

theorem allObjects_pairwise {documents : List SDoc}
    (hwf : ∀ d ∈ documents, WFDoc d) :
    List.Pairwise keyLt (allObjectsOf documents) := by
  obtain ⟨h1, _, _, hinv⟩ := loop_closed hwf
  obtain ⟨_, h2, _, _⟩ := hinv
  rwa [h1] at h2

theorem pool_pairwise {documents : List SDoc}
    (hwf : ∀ d ∈ documents, WFDoc d) :
    List.Pairwise keyLt (poolOf documents) := by
  obtain ⟨_, h1, _, hinv⟩ := loop_closed hwf
  obtain ⟨h2, _, _, _⟩ := hinv
  rwa [h1] at h2

/-! ### First-found survivors -/

theorem pagesAcc_some_first {es : List (ObjectId × Obj)} {pagesObj : ObjectId × Obj}
    (h : pagesAcc none es = some pagesObj) :
    ∃ fp, es.find? isPagesDictB = some fp ∧ fp.1 = pagesObj.1 := by
  have hid := pagesAcc_id es
  rw [h] at hid
  cases hf : es.find? isPagesDictB with
  | none => rw [hf] at hid; simp at hid
  | some fp =>
    rw [hf] at hid
    simp only [Option.map_some'] at hid
    exact ⟨fp, rfl, (Option.some.inj hid).symm⟩

theorem catalogAcc_some_first {es : List (ObjectId × Obj)} {catObj : ObjectId × Obj}
    (h : catalogAcc none es = some catObj) :
    ∃ fc, es.find? isCatalogB = some fc ∧ fc.1 = catObj.1 := by
  have hid := catalogAcc_id es
  rw [h] at hid
  cases hf : es.find? isCatalogB with
  | none => rw [hf] at hid; simp at hid
  | some fc =>
    rw [hf] at hid
    simp only [Option.map_some'] at hid
    exact ⟨fc, rfl, (Option.some.inj hid).symm⟩

/-- The full context of a successful merge over well-formed inputs: the found
first Pages entry, its dictionary, the first-found catalog identifier, the
distinctness of the two survivors, and the closed form of the result. -/
theorem merge_context {documents : List SDoc} {m : MergedDoc}
    (hwf : ∀ d ∈ documents, WFDoc d)
    (hm : (merge_pdf documents).1 = some m) :
    ∃ (pagesObj catObj fp fc : ObjectId × Obj) (dct : DictEntries),
      (allObjectsOf documents).find? isPagesDictB = some fp ∧
      fp.1 = pagesObj.1 ∧
      asDict fp.2 = some dct ∧
      pagesDicts (allObjectsOf documents) =
        dct :: (pagesDicts (allObjectsOf documents)).tail ∧
      pagesObj.2 =
        Obj.dictionary (foldNewOld dct (pagesDicts (allObjectsOf documents)).tail) ∧
      (allObjectsOf documents).find? isCatalogB = some fc ∧
      fc.1 = catObj.1 ∧
      catalogAcc none (allObjectsOf documents) = some catObj ∧
      catObj.1 ≠ pagesObj.1 ∧
      m = MergedDoc.mk
            (rebuildCatalog pagesObj.1 catObj
              (rebuildPages (poolOf documents) pagesObj
                (withParents pagesObj.1 (othersFold [] (allObjectsOf documents))
                  (poolOf documents))))
            (pendingBookmarks 1 (rdocsOf documents))
            pagesObj.1 catObj.1 catObj.1 := by
  obtain ⟨pagesObj, catObj, hpacc, hcacc, hmform⟩ := merge_success hm
  obtain ⟨hobj, hpool, hbm, _⟩ := loop_closed hwf
  rw [hobj] at hpacc hcacc
  rw [hobj, hpool, hbm] at hmform
  obtain ⟨fp, hfp, hfp1⟩ := pagesAcc_some_first hpacc
  obtain ⟨fc, hfc, hfc1⟩ := catalogAcc_some_first hcacc
  obtain ⟨dct, hdct, hclosed, htail⟩ := pagesAcc_closed _ fp hfp
  have hobjform : pagesObj =
      (fp.1, Obj.dictionary (foldNewOld dct (pagesDicts (allObjectsOf documents)).tail)) := by
    rw [hpacc] at hclosed
    exact Option.some.inj hclosed
  have hpd2 : pagesObj.2 =
      Obj.dictionary (foldNewOld dct (pagesDicts (allObjectsOf documents)).tail) := by
    rw [hobjform]
  have hne : catObj.1 ≠ pagesObj.1 := by
    intro hcp
    have hfpm := List.mem_of_find?_eq_some hfp
    have hfpp := List.find?_some hfp
    have hfcm := List.mem_of_find?_eq_some hfc
    have hfcp := List.find?_some hfc
    have hnd : (btKeys (allObjectsOf documents)).Nodup :=
      pairwise_keys_nodup (allObjects_pairwise hwf)
    have hkeq : fc.1 = fp.1 := by rw [hfc1, hcp, ← hfp1]
    have heq : fc = fp := key_unique hnd hfcm hfpm hkeq
    have h1 := isCatalogB_elim hfcp
    obtain ⟨h2, _⟩ := isPagesDictB_elim hfpp
    rw [heq] at h1
    rw [h1] at h2
    exact absurd h2 (by decide)
  exact ⟨pagesObj, catObj, fp, fc, dct, hfp, hfp1, hdct, htail, hpd2,
    hfc, hfc1, hcacc, hne, hmform⟩

/-! ### The surviving Pages dictionary of a successful merge -/

/-- The first-wins merge of all Pages-classified dictionaries of an entry
sequence, folded into the first one. -/
def mergedPagesDict (es : List (ObjectId × Obj)) : Option DictEntries :=
  match pagesDicts es with
  | [] => none
  | d :: t => some (foldNewOld d t)

theorem listOfObjs_objArr : ∀ (l : List Obj), listOfObjs (objArr l) = l
  | [] => rfl
  | o :: t => by simp only [objArr, listOfObjs, listOfObjs_objArr t]

theorem filterMap_asRef_refs : ∀ (l : List (ObjectId × Obj)),
    (l.map (fun e => Obj.reference e.1)).filterMap asRef = l.map Prod.fst
  | [] => rfl
  | e :: t => by
    simp only [List.map_cons, List.filterMap_cons, asRef, filterMap_asRef_refs t]

theorem dictGet_rebuiltPagesDict_kids (pool : List (ObjectId × Obj)) (D : DictEntries) :
    dictGet (rebuiltPagesDict pool D) "Kids" =
      some (Obj.array (objArr (pool.map (fun e => Obj.reference e.1)))) :=
  dictGet_dictSet_self _ _ _

theorem dictGet_rebuiltPagesDict_count (pool : List (ObjectId × Obj)) (D : DictEntries) :
    dictGet (rebuiltPagesDict pool D) "Count" =
      some (Obj.integer (Int.ofNat (pool.length % u32Mod))) := by
  unfold rebuiltPagesDict
  rw [dictGet_dictSet_ne _ _ (by decide : ("Count" : String) ≠ "Kids")]
  exact dictGet_dictSet_self _ _ _

theorem dictGet_rebuiltPagesDict_other (pool : List (ObjectId × Obj)) (D : DictEntries)
    {k : String} (h1 : k ≠ "Kids") (h2 : k ≠ "Count") :
    dictGet (rebuiltPagesDict pool D) k = dictGet D k := by
  unfold rebuiltPagesDict
  rw [dictGet_dictSet_ne _ _ h1, dictGet_dictSet_ne _ _ h2]

theorem merge_pages_lookup {documents : List SDoc} {m : MergedDoc}
    (hwf : ∀ d ∈ documents, WFDoc d)
    (hm : (merge_pdf documents).1 = some m) :
    ∃ D, mergedPagesDict (allObjectsOf documents) = some D ∧
      survivingPagesDict m = some (rebuiltPagesDict (poolOf documents) D) ∧
      survivingKidsIds m = btKeys (poolOf documents) := by
  obtain ⟨pagesObj, catObj, fp, fc, dct, hfp, hfp1, hdct, htail, hpd2,
    hfc, hfc1, hcacc, hne, hmform⟩ := merge_context hwf hm
  have hmerged : mergedPagesDict (allObjectsOf documents) =
      some (foldNewOld dct (pagesDicts (allObjectsOf documents)).tail) := by
    unfold mergedPagesDict
    rw [htail]
    rfl
  have hasD : asDict pagesObj.2 =
      some (foldNewOld dct (pagesDicts (allObjectsOf documents)).tail) := by
    rw [hpd2]
    rfl
  have hspd : survivingPagesDict m =
      some (rebuiltPagesDict (poolOf documents)
        (foldNewOld dct (pagesDicts (allObjectsOf documents)).tail)) := by
    unfold survivingPagesDict
    rw [hmform]
    show (assocFind
        (rebuildCatalog pagesObj.1 catObj
          (rebuildPages (poolOf documents) pagesObj
            (withParents pagesObj.1 (othersFold [] (allObjectsOf documents))
              (poolOf documents))))
        pagesObj.1).bind asDict = _
    rw [assocFind_rebuildCatalog_ne pagesObj.1 _ (fun hc => hne hc.symm)]
    rw [assocFind_rebuildPages_self _ _ hasD]
    rfl
  refine ⟨foldNewOld dct (pagesDicts (allObjectsOf documents)).tail, hmerged, hspd, ?_⟩
  unfold survivingKidsIds
  rw [hspd]
  show (match dictGet (rebuiltPagesDict (poolOf documents) _) "Kids" with
        | some (.array xs) => (listOfObjs xs).filterMap asRef
        | _ => []) = _
  rw [dictGet_rebuiltPagesDict_kids]
  show (listOfObjs (objArr ((poolOf documents).map (fun e => Obj.reference e.1)))).filterMap
      asRef = _
  rw [listOfObjs_objArr, filterMap_asRef_refs]
  rfl

theorem dictGet_mergedPagesDict {es : List (ObjectId × Obj)} {D : DictEntries}
    (hD : mergedPagesDict es = some D)
    (hnd : ∀ dd ∈ pagesDicts es, (dictKeys dd).Nodup) (k : String) :
    dictGet D k = firstDefined (pagesDicts es) k := by
  unfold mergedPagesDict at hD
  cases hpd : pagesDicts es with
  | nil => rw [hpd] at hD; simp at hD
  | cons d t =>
    rw [hpd] at hD
    simp only [Option.some.injEq] at hD
    have hd : (dictKeys d).Nodup := hnd d (by rw [hpd]; exact List.mem_cons_self _ _)
    have ht : ∀ d' ∈ t, (dictKeys d').Nodup :=
      fun d' h' => hnd d' (by rw [hpd]; exact List.mem_cons_of_mem _ h')
    rw [← hD, dictGet_foldNewOld t d k hd ht]
    cases hdk : dictGet d k with
    | some v => simp [firstDefined, hdk]
    | none => simp [firstDefined, hdk]

/-! ### Pool size and order -/

theorem renumberAll_pages_lengths : ∀ (ds : List SDoc) (start : Nat),
    (renumberAll start ds).map (fun d => d.pages.length) =
      ds.map (fun d => d.pages.length)
  | [], _ => rfl
  | d :: t, start => by
    simp only [renumberAll, List.map_cons, renumberWith, List.length_map]
    rw [renumberAll_pages_lengths t _]

theorem poolOf_length {documents : List SDoc} (hwf : ∀ d ∈ documents, WFDoc d) :
    (poolOf documents).length = (documents.map (fun d => d.pages.length)).sum := by
  unfold poolOf
  rw [List.length_flatten, List.map_map]
  have h1 : ∀ d1 ∈ rdocsOf documents,
      (List.length ∘ docPool) d1 = d1.pages.length := by
    intro d1 hd1
    obtain ⟨_, hnd, _, _⟩ := rdocs_wf documents 1 hwf d1 hd1
    exact docPool_length hnd
  rw [List.map_congr_left h1]
  have := renumberAll_pages_lengths documents 1
  rw [show (rdocsOf documents).map (fun d => d.pages.length) =
      (renumberAll 1 documents).map (fun d => d.pages.length) from rfl, this]

theorem poolKeys_perm_aux : ∀ (ds : List SDoc), (∀ d ∈ ds, d.pages.Nodup) →
    ((ds.map docPool).flatten.map Prod.fst).Perm ((ds.map SDoc.pages).flatten)
  | [], _ => List.Perm.refl []
  | d :: t, h => by
    simp only [List.map_cons, List.flatten_cons, List.map_append]
    exact ((btKeys_docPool_perm (h d (List.mem_cons_self _ _))).append
      (poolKeys_perm_aux t (fun d' h' => h d' (List.mem_cons_of_mem _ h'))))

theorem poolKeys_perm {documents : List SDoc} (hwf : ∀ d ∈ documents, WFDoc d) :
    (btKeys (poolOf documents)).Perm (allPagesOf documents) := by
  unfold poolOf allPagesOf btKeys
  exact poolKeys_perm_aux (rdocsOf documents)
    (fun d1 hd1 => (rdocs_wf documents 1 hwf d1 hd1).2.1)

/-! ### Pending bookmarks, in closed form -/

theorem pendingBookmarks_titles : ∀ (ds : List SDoc) (n : Nat),
    (pendingBookmarks n ds).map (fun b => b.title) =
      (List.range ((ds.filter (fun d => !d.pages.isEmpty)).length)).map
        (fun i => "Page_" ++ toString (n + i))
  | [], n => rfl
  | d :: t, n => by
    cases hp : d.pages with
    | nil =>
      have h1 : pendingBookmarks n (d :: t) = pendingBookmarks n t := by
        simp only [pendingBookmarks, hp]
      have h2 : (d :: t).filter (fun d => !d.pages.isEmpty) =
          t.filter (fun d => !d.pages.isEmpty) := by
        simp [List.filter_cons, hp]
      rw [h1, h2]
      exact pendingBookmarks_titles t n
    | cons p r =>
      have h1 : pendingBookmarks n (d :: t) =
          Bookmark.mk ("Page_" ++ toString n) 0 p :: pendingBookmarks (n + 1) t := by
        simp only [pendingBookmarks, hp]
      have h2 : (d :: t).filter (fun d => !d.pages.isEmpty) =
          d :: t.filter (fun d => !d.pages.isEmpty) := by
        simp [List.filter_cons, hp]
      rw [h1, h2]
      simp only [List.map_cons, List.length_cons]
      rw [List.range_succ_eq_map, pendingBookmarks_titles t (n + 1)]
      simp only [List.map_cons, List.map_map]
      refine List.cons_eq_cons.mpr ⟨by simp, ?_⟩
      apply List.map_congr_left
      intro a _
      show "Page_" ++ toString (n + 1 + a) = "Page_" ++ toString (n + (a + 1))
      have : n + 1 + a = n + (a + 1) := by omega
      rw [this]

theorem pendingBookmarks_targets : ∀ (ds : List SDoc) (n : Nat),
    (pendingBookmarks n ds).map (fun b => b.target) =
      (ds.filter (fun d => !d.pages.isEmpty)).map (fun d => d.pages.headD (0, 0))
  | [], _ => rfl
  | d :: t, n => by
    cases hp : d.pages with
    | nil =>
      have h1 : pendingBookmarks n (d :: t) = pendingBookmarks n t := by
        simp only [pendingBookmarks, hp]
      rw [h1, show (d :: t).filter (fun d => !d.pages.isEmpty) =
          t.filter (fun d => !d.pages.isEmpty) from by simp [List.filter_cons, hp]]
      exact pendingBookmarks_targets t n
    | cons p r =>
      have h1 : pendingBookmarks n (d :: t) =
          Bookmark.mk ("Page_" ++ toString n) 0 p :: pendingBookmarks (n + 1) t := by
        simp only [pendingBookmarks, hp]
      rw [h1, show (d :: t).filter (fun d => !d.pages.isEmpty) =
          d :: t.filter (fun d => !d.pages.isEmpty) from by simp [List.filter_cons, hp]]
      simp only [List.map_cons]
      rw [pendingBookmarks_targets t (n + 1)]
      simp [hp]

theorem pendingBookmarks_indents : ∀ (ds : List SDoc) (n : Nat),
    ∀ b ∈ pendingBookmarks n ds, b.indent = 0
  | [], _, b, hb => by simp [pendingBookmarks] at hb
  | d :: t, n, b, hb => by
    cases hp : d.pages with
    | nil =>
      rw [show pendingBookmarks n (d :: t) = pendingBookmarks n t from by
        simp only [pendingBookmarks, hp]] at hb
      exact pendingBookmarks_indents t n b hb
    | cons p r =>
      rw [show pendingBookmarks n (d :: t) =
          Bookmark.mk ("Page_" ++ toString n) 0 p :: pendingBookmarks (n + 1) t from by
        simp only [pendingBookmarks, hp]] at hb
      rcases List.mem_cons.mp hb with h' | h'
      · rw [h']
      · exact pendingBookmarks_indents t (n + 1) b h'

theorem pendingBookmarks_length : ∀ (ds : List SDoc) (n : Nat),
    (pendingBookmarks n ds).length = (ds.filter (fun d => !d.pages.isEmpty)).length := by
  intro ds n
  have := congrArg List.length (pendingBookmarks_targets ds n)
  simpa using this

/-! ### Renumbering preserves emptiness and membership -/

theorem renumberAll_contrib_count : ∀ (ds : List SDoc) (start : Nat),
    ((renumberAll start ds).filter (fun d => !d.pages.isEmpty)).length =
      (ds.filter (fun d => !d.pages.isEmpty)).length
  | [], _ => rfl
  | d :: t, start => by
    have hpe : (renumberWith start d).pages.isEmpty = d.pages.isEmpty := by
      cases hp : d.pages <;> simp [renumberWith, hp]
    show ((renumberWith start d :: renumberAll _ t).filter
      (fun d => !d.pages.isEmpty)).length = _
    rw [List.filter_cons, List.filter_cons, hpe]
    cases h : d.pages.isEmpty <;>
      simp [renumberAll_contrib_count t ((renumberWith start d).maxId + 1)]

theorem mem_renumberAll : ∀ (ds : List SDoc) (start : Nat) (d : SDoc), d ∈ ds →
    ∃ off, renumberWith off d ∈ renumberAll start ds
  | [], _, _, h => by simp at h
  | d0 :: t, start, d, h => by
    rcases List.mem_cons.mp h with h' | h'
    · subst h'
      exact ⟨start, List.mem_cons_self _ _⟩
    · obtain ⟨off, hoff⟩ := mem_renumberAll t ((renumberWith start d0).maxId + 1) d h'
      exact ⟨off, List.mem_cons_of_mem _ hoff⟩

theorem isPagesDictB_remap (f : ObjectId → ObjectId) (k k' : ObjectId) (o : Obj) :
    isPagesDictB (k', remapObj f o) = isPagesDictB (k, o) := by
  unfold isPagesDictB
  show (decide (typeNameD (remapObj f o) = "Pages") && (asDict (remapObj f o)).isSome) = _
  rw [typeNameD_remapObj, asDict_remapObj]
  cases asDict o <;> rfl

theorem isCatalogB_remap (f : ObjectId → ObjectId) (k k' : ObjectId) (o : Obj) :
    isCatalogB (k', remapObj f o) = isCatalogB (k, o) := by
  unfold isCatalogB
  show decide (typeNameD (remapObj f o) = "Catalog") = _
  rw [typeNameD_remapObj]

/-! ### Concrete documents used in witnesses and counterexamples -/

/-- A minimal one-page document: catalog (1,0), pages root (2,0), page (3,0). -/
def docOnePage : SDoc :=
  { objects :=
      [((1, 0), Obj.dictionary (objDict
          [("Type", Obj.name "Catalog"), ("Pages", Obj.reference (2, 0))])),
       ((2, 0), Obj.dictionary (objDict
          [("Type", Obj.name "Pages"),
           ("Kids", Obj.array (objArr [Obj.reference (3, 0)])),
           ("Count", Obj.integer 1)])),
       ((3, 0), Obj.dictionary (objDict
          [("Type", Obj.name "Page"), ("Parent", Obj.reference (2, 0))]))]
    pages := [(3, 0)]
    maxId := 3 }

/-- A valid zero-page document: catalog (1,0) and an empty pages root (2,0). -/
def docNoPages : SDoc :=
  { objects :=
      [((1, 0), Obj.dictionary (objDict
          [("Type", Obj.name "Catalog"), ("Pages", Obj.reference (2, 0))])),
       ((2, 0), Obj.dictionary (objDict
          [("Type", Obj.name "Pages"), ("Kids", Obj.array (objArr [])),
           ("Count", Obj.integer 0)]))]
    pages := []
    maxId := 2 }

/-- A well-formed document whose page tree lists its two pages in reading
order (4,0), (3,0): the page with the larger object number comes first. -/
def docSwapped : SDoc :=
  { objects :=
      [((1, 0), Obj.dictionary (objDict
          [("Type", Obj.name "Catalog"), ("Pages", Obj.reference (2, 0))])),
       ((2, 0), Obj.dictionary (objDict
          [("Type", Obj.name "Pages"),
           ("Kids", Obj.array (objArr [Obj.reference (4, 0), Obj.reference (3, 0)])),
           ("Count", Obj.integer 2)])),
       ((3, 0), Obj.dictionary (objDict
          [("Type", Obj.name "Page"), ("Parent", Obj.reference (2, 0))])),
       ((4, 0), Obj.dictionary (objDict
          [("Type", Obj.name "Page"), ("Parent", Obj.reference (2, 0))]))]
    pages := [(4, 0), (3, 0)]
    maxId := 4 }

/-- A zero-page document whose catalog carries the custom field Marker = 1. -/
def docMarkerA : SDoc :=
  { objects :=
      [((1, 0), Obj.dictionary (objDict
          [("Type", Obj.name "Catalog"), ("Marker", Obj.integer 1),
           ("Pages", Obj.reference (2, 0))])),
       ((2, 0), Obj.dictionary (objDict
          [("Type", Obj.name "Pages"), ("Kids", Obj.array (objArr [])),
           ("Count", Obj.integer 0)]))]
    pages := []
    maxId := 2 }

/-- Like `docMarkerA`, with Marker = 2. -/
def docMarkerB : SDoc :=
  { objects :=
      [((1, 0), Obj.dictionary (objDict
          [("Type", Obj.name "Catalog"), ("Marker", Obj.integer 2),
           ("Pages", Obj.reference (2, 0))])),
       ((2, 0), Obj.dictionary (objDict
          [("Type", Obj.name "Pages"), ("Kids", Obj.array (objArr [])),
           ("Count", Obj.integer 0)]))]
    pages := []
    maxId := 2 }

/-- The merged document of the run on `[docOnePage]`, named for witnesses. -/
def wmOne : MergedDoc := ((merge_pdf [docOnePage]).1).getD dummyMerged

/-- The merged document of the run on `[docMarkerA, docMarkerB]`. -/
def wmMarkers : MergedDoc := ((merge_pdf [docMarkerA, docMarkerB]).1).getD dummyMerged

/-- The last-encountered Catalog entry of that run (docMarkerB's catalog,
renumbered by offset 4). -/
def wLastCat : ObjectId × Obj :=
  ((5, 0), Obj.dictionary (objDict
    [("Type", Obj.name "Catalog"), ("Marker", Obj.integer 2),
     ("Pages", Obj.reference (6, 0))]))

/-- Its dictionary. -/
def wLastCatDict : DictEntries :=
  objDict [("Type", Obj.name "Catalog"), ("Marker", Obj.integer 2),
    ("Pages", Obj.reference (6, 0))]

/-! ### Claims -/

/-- C1 (counterexample): the claim says the Kids array lists the pooled pages
as the concatenation of each input's page order.  For `docSwapped` — a single
well-formed input whose page tree lists its pages as (4,0), (3,0) after
renumbering maps them to (5,0), (4,0) — the merged Kids array is
[(4,0), (5,0)] (ascending identifier order, the `BTreeMap` iteration order),
which differs from the input's page order [(5,0), (4,0)]. -/
theorem C1_counterexample :
    ((merge_pdf [docSwapped]).1).map survivingKidsIds = some [(4, 0), (5, 0)] ∧
    allPagesOf [docSwapped] = [(5, 0), (4, 0)] ∧
    ([(4, 0), (5, 0)] : List ObjectId) ≠ [(5, 0), (4, 0)] :=
  ⟨by decide, by decide, by decide⟩

/-- C1 (amended): for well-formed inputs, the merged Kids array has exactly
one entry per input page (its length is the sum of the inputs' page counts),
and it enumerates precisely the pooled (renumbered) pages — a permutation of
the concatenation of the inputs' page lists — but in ascending identifier
order rather than in each input's page order. -/
theorem C1_page_count_and_kids (documents : List SDoc) (m : MergedDoc)
    (hwf : ∀ d ∈ documents, WFDoc d)
    (hm : (merge_pdf documents).1 = some m) :
    (survivingKidsIds m).length = (documents.map (fun d => d.pages.length)).sum ∧
    (survivingKidsIds m).Perm (allPagesOf documents) ∧
    List.Pairwise idLt (survivingKidsIds m) := by
  obtain ⟨D, hD, hspd, hkids⟩ := merge_pages_lookup hwf hm
  rw [hkids]
  refine ⟨?_, poolKeys_perm hwf, ?_⟩
  · rw [show (btKeys (poolOf documents)).length = (poolOf documents).length from by
      simp [btKeys]]
    exact poolOf_length hwf
  · exact List.Pairwise.map Prod.fst (fun a b hab => hab) (pool_pairwise hwf)

/-- C1 witness: the single-input run on `docOnePage`. -/
theorem C1_page_count_and_kids_witness :
    (∀ d ∈ [docOnePage], WFDoc d) ∧
    (merge_pdf [docOnePage]).1 = some wmOne ∧
    ((survivingKidsIds wmOne).length = ([docOnePage].map (fun d => d.pages.length)).sum ∧
     (survivingKidsIds wmOne).Perm (allPagesOf [docOnePage]) ∧
     List.Pairwise idLt (survivingKidsIds wmOne)) :=
  ⟨by decide, rfl, C1_page_count_and_kids [docOnePage] wmOne (by decide) rfl⟩

/-- C2: after every successful merge of well-formed inputs whose page lists
resolve to Page-typed dictionaries and whose total page count fits in a u32,
the surviving Pages dictionary's Count equals the length of its Kids array,
and every Kids entry resolves in the merged table to a page dictionary whose
Parent is the surviving Pages identifier. -/
theorem C2_count_and_parents (documents : List SDoc) (m : MergedDoc)
    (hwf : ∀ d ∈ documents, WFDoc d)
    (htp : ∀ d ∈ documents, PagesTyped d)
    (hsize : (documents.map (fun d => d.pages.length)).sum < u32Mod)
    (hm : (merge_pdf documents).1 = some m) :
    ((survivingPagesDict m).bind (fun dd => dictGet dd "Count")) =
      some (Obj.integer (Int.ofNat (survivingKidsIds m).length)) ∧
    ∀ kid ∈ survivingKidsIds m, ∃ dd,
      assocFind m.objects kid = some (Obj.dictionary dd) ∧
      dictGet dd "Parent" = some (Obj.reference m.pagesId) := by
  obtain ⟨D, hD, hspd, hkids⟩ := merge_pages_lookup hwf hm
  constructor
  · rw [hspd]
    show dictGet (rebuiltPagesDict (poolOf documents) D) "Count" = _
    rw [dictGet_rebuiltPagesDict_count, hkids]
    rw [show (btKeys (poolOf documents)).length = (poolOf documents).length from by
      simp [btKeys]]
    have hplen := poolOf_length hwf
    rw [Nat.mod_eq_of_lt (by rw [hplen]; exact hsize)]
  · obtain ⟨pagesObj, catObj, fp, fc, dct, hfp, hfp1, hdct, htail, hpd2,
      hfc, hfc1, hcacc, hneq, hmform⟩ := merge_context hwf hm
    intro kid hkid
    rw [hkids] at hkid
    obtain ⟨e, he, hek⟩ : ∃ e ∈ poolOf documents, e.1 = kid := by
      simpa [btKeys, List.mem_map] using hkid
    subst hek
    obtain ⟨dd0, hval, hty, hmem⟩ := pool_entry_page hwf htp he
    have hnd : (btKeys (allObjectsOf documents)).Nodup :=
      pairwise_keys_nodup (allObjects_pairwise hwf)
    have htpe : typeNameD e.2 = "Page" := by
      rw [hval]; exact typeNameD_dict_of_name hty
    have hfpm := List.mem_of_find?_eq_some hfp
    have hfpp := List.find?_some hfp
    have hfcm := List.mem_of_find?_eq_some hfc
    have hfcp := List.find?_some hfc
    have hnotc : e.1 ≠ catObj.1 := by
      intro hc
      have heq : (e.1, e.2) = fc :=
        key_unique hnd hmem hfcm (by rw [show (e.1, e.2).1 = e.1 from rfl, hc, hfc1])
      have h1 := isCatalogB_elim hfcp
      rw [← heq] at h1
      rw [show (e.1, e.2).2 = e.2 from rfl] at h1
      rw [htpe] at h1
      exact absurd h1 (by decide)
    have hnotp : e.1 ≠ pagesObj.1 := by
      intro hc
      have heq : (e.1, e.2) = fp :=
        key_unique hnd hmem hfpm (by rw [show (e.1, e.2).1 = e.1 from rfl, hc, hfp1])
      obtain ⟨h1, _⟩ := isPagesDictB_elim hfpp
      rw [← heq] at h1
      rw [show (e.1, e.2).2 = e.2 from rfl] at h1
      rw [htpe] at h1
      exact absurd h1 (by decide)
    refine ⟨dictSet dd0 "Parent" (Obj.reference pagesObj.1), ?_, ?_⟩
    · rw [hmform]
      show assocFind
          (rebuildCatalog pagesObj.1 catObj
            (rebuildPages (poolOf documents) pagesObj
              (withParents pagesObj.1 (othersFold [] (allObjectsOf documents))
                (poolOf documents)))) e.1 = _
      rw [assocFind_rebuildCatalog_ne pagesObj.1 _ hnotc,
        assocFind_rebuildPages_ne _ _ hnotp]
      exact assocFind_withParents_mem (poolOf documents) _ pagesObj.1 e dd0 he
        (pairwise_keys_nodup (pool_pairwise hwf)) (by rw [hval]; rfl)
    · rw [dictGet_dictSet_self, hmform]

/-- C2 witness: the single-input run on `docOnePage`. -/
theorem C2_count_and_parents_witness :
    (∀ d ∈ [docOnePage], WFDoc d) ∧
    (∀ d ∈ [docOnePage], PagesTyped d) ∧
    ([docOnePage].map (fun d => d.pages.length)).sum < u32Mod ∧
    (merge_pdf [docOnePage]).1 = some wmOne ∧
    (((survivingPagesDict wmOne).bind (fun dd => dictGet dd "Count")) =
       some (Obj.integer (Int.ofNat (survivingKidsIds wmOne).length)) ∧
     ∀ kid ∈ survivingKidsIds wmOne, ∃ dd,
       assocFind wmOne.objects kid = some (Obj.dictionary dd) ∧
       dictGet dd "Parent" = some (Obj.reference wmOne.pagesId)) :=
  ⟨by decide, by decide, by decide, rfl,
   C2_count_and_parents [docOnePage] wmOne (by decide) (by decide) (by decide) rfl⟩

/-- C3 (counterexample): the claim says both the identifier and the
dictionary content of the surviving catalog come from the first-encountered
Catalog object.  Merging `docMarkerA` (catalog Marker = 1) before
`docMarkerB` (Marker = 2), the surviving catalog keeps the first-encountered
identifier (2,0), but its content is the last-encountered catalog's: the
merged Marker is 2, while the first-encountered catalog entry — also shown —
carries Marker 1. -/
theorem C3_counterexample :
    ((merge_pdf [docMarkerA, docMarkerB]).1).map
        (fun m => (m.catalogId,
          (((assocFind m.objects m.catalogId).bind asDict).bind
            (fun dd => dictGet dd "Marker")).bind asInt)) =
      some ((2, 0), some 2) ∧
    ((allObjectsOf [docMarkerA, docMarkerB]).find? isCatalogB).map
        (fun e => (e.1, ((asDict e.2).bind (fun dd => dictGet dd "Marker")).bind asInt)) =
      some ((2, 0), some 1) ∧
    (some (2 : Int) ≠ some (1 : Int)) :=
  ⟨by decide, by decide, by decide⟩

/-- C3 (amended): the surviving catalog takes its identifier from the
first-encountered Catalog-classified object but its dictionary content from
the last-encountered one, to which the finalizer then applies the rewires:
Pages set to the surviving Pages identifier and Outlines removed. -/
theorem C3_first_id_last_content (documents : List SDoc) (m : MergedDoc)
    (hwf : ∀ d ∈ documents, WFDoc d)
    (hm : (merge_pdf documents).1 = some m) :
    ((allObjectsOf documents).find? isCatalogB).map Prod.fst = some m.catalogId ∧
    (∀ lastc dct, ((allObjectsOf documents).filter isCatalogB).getLast? = some lastc →
      asDict lastc.2 = some dct →
      assocFind m.objects m.catalogId =
        some (Obj.dictionary (rebuiltCatalogDict m.pagesId dct))) := by
  obtain ⟨pagesObj, catObj, fp, fc, dct0, hfp, hfp1, hdct, htail, hpd2,
    hfc, hfc1, hcacc, hne, hmform⟩ := merge_context hwf hm
  constructor
  · rw [hfc]
    simp only [Option.map_some']
    rw [hfc1, hmform]
  · intro lastc dctC hlast hdlast
    have hobj := catalogAcc_obj (allObjectsOf documents) none
    rw [hcacc, hlast] at hobj
    simp only [Option.map_some'] at hobj
    have hcat2 : catObj.2 = lastc.2 := Option.some.inj hobj
    have hasC : asDict catObj.2 = some dctC := by rw [hcat2]; exact hdlast
    rw [hmform]
    show assocFind
        (rebuildCatalog pagesObj.1 catObj
          (rebuildPages (poolOf documents) pagesObj
            (withParents pagesObj.1 (othersFold [] (allObjectsOf documents))
              (poolOf documents)))) catObj.1 = _
    rw [assocFind_rebuildCatalog_self pagesObj.1 _ hasC]

/-- C3 witness: the two-input run with distinguishable catalogs. -/
theorem C3_first_id_last_content_witness :
    (∀ d ∈ [docMarkerA, docMarkerB], WFDoc d) ∧
    (merge_pdf [docMarkerA, docMarkerB]).1 = some wmMarkers ∧
    ((allObjectsOf [docMarkerA, docMarkerB]).filter isCatalogB).getLast? =
      some wLastCat ∧
    asDict wLastCat.2 = some wLastCatDict ∧
    ((allObjectsOf [docMarkerA, docMarkerB]).find? isCatalogB).map Prod.fst =
      some wmMarkers.catalogId ∧
    assocFind wmMarkers.objects wmMarkers.catalogId =
      some (Obj.dictionary (rebuiltCatalogDict wmMarkers.pagesId wLastCatDict)) :=
  ⟨by decide, rfl, rfl, rfl,
   (C3_first_id_last_content [docMarkerA, docMarkerB] wmMarkers (by decide) rfl).1,
   (C3_first_id_last_content [docMarkerA, docMarkerB] wmMarkers (by decide) rfl).2
     wLastCat wLastCatDict rfl rfl⟩

/-- C4: in the surviving Pages dictionary, every field other than Kids and
Count carries the value of the earliest Pages-classified dictionary (in
document order) that defines it — first-wins, later values never overwrite
earlier ones — while Kids and Count are recomputed from the pooled pages and
never taken from any source dictionary. -/
theorem C4_first_wins (documents : List SDoc) (m : MergedDoc)
    (hwf : ∀ d ∈ documents, WFDoc d)
    (hnd : ∀ dd ∈ pagesDicts (allObjectsOf documents), (dictKeys dd).Nodup)
    (hm : (merge_pdf documents).1 = some m) :
    (∀ k, k ≠ "Kids" → k ≠ "Count" →
      (survivingPagesDict m).bind (fun dd => dictGet dd k) =
        firstDefined (pagesDicts (allObjectsOf documents)) k) ∧
    (survivingPagesDict m).bind (fun dd => dictGet dd "Kids") =
      some (Obj.array (objArr ((poolOf documents).map (fun e => Obj.reference e.1)))) ∧
    (survivingPagesDict m).bind (fun dd => dictGet dd "Count") =
      some (Obj.integer (Int.ofNat ((poolOf documents).length % u32Mod))) := by
  obtain ⟨D, hD, hspd, hkids⟩ := merge_pages_lookup hwf hm
  refine ⟨?_, ?_, ?_⟩
  · intro k h1 h2
    rw [hspd]
    show dictGet (rebuiltPagesDict (poolOf documents) D) k = _
    rw [dictGet_rebuiltPagesDict_other _ _ h1 h2]
    exact dictGet_mergedPagesDict hD hnd k
  · rw [hspd]
    exact dictGet_rebuiltPagesDict_kids _ _
  · rw [hspd]
    exact dictGet_rebuiltPagesDict_count _ _

/-- C4 witness: the single-input run on `docOnePage`, with the generic field
conclusion instantiated at the "Type" field. -/
theorem C4_first_wins_witness :
    (∀ d ∈ [docOnePage], WFDoc d) ∧
    (∀ dd ∈ pagesDicts (allObjectsOf [docOnePage]), (dictKeys dd).Nodup) ∧
    (merge_pdf [docOnePage]).1 = some wmOne ∧
    (survivingPagesDict wmOne).bind (fun dd => dictGet dd "Type") =
      firstDefined (pagesDicts (allObjectsOf [docOnePage])) "Type" ∧
    (survivingPagesDict wmOne).bind (fun dd => dictGet dd "Kids") =
      some (Obj.array (objArr ((poolOf [docOnePage]).map (fun e => Obj.reference e.1)))) ∧
    (survivingPagesDict wmOne).bind (fun dd => dictGet dd "Count") =
      some (Obj.integer (Int.ofNat ((poolOf [docOnePage]).length % u32Mod))) :=
  ⟨by decide, by decide, rfl,
   (C4_first_wins [docOnePage] wmOne (by decide) (by decide) rfl).1 "Type"
     (by decide) (by decide),
   (C4_first_wins [docOnePage] wmOne (by decide) (by decide) rfl).2.1,
   (C4_first_wins [docOnePage] wmOne (by decide) (by decide) rfl).2.2⟩

/-- C5 (counterexample): the claim says a structurally failing run prints one
diagnostic line, writes no output file and exits non-zero.  On the empty
input list the program prints two lines ("Pages root not found." from
`merge_pdf`, then "Failed to merge PDFs." from `main`), has already created
(truncated) the output file before merging, and `main` returns `Ok(())`, so
the exit status is 0. -/
theorem C5_counterexample :
    mainCore [] =
      MainOutcome.mk ["Pages root not found.", "Failed to merge PDFs."] true false 0 ∧
    (mainCore []).printedLines.length = 2 ∧
    (mainCore []).outputFileCreated = true ∧
    (mainCore []).exitCode = 0 :=
  ⟨by decide, by decide, by decide, by decide⟩

/-- C5 (amended): on every structurally failing run the program prints
exactly two diagnostic lines — the merge diagnostic ("Pages root not found."
or "Catalog root not found.") followed by "Failed to merge PDFs." — the
output file has already been created (and is left without merged content),
and the run completes with exit status 0. -/
theorem C5_failure_behaviour (documents : List SDoc)
    (hfail : (merge_pdf documents).1 = none) :
    mainCore documents =
      MainOutcome.mk ((merge_pdf documents).2 ++ ["Failed to merge PDFs."]) true false 0 ∧
    ((merge_pdf documents).2 = ["Pages root not found."] ∨
      (merge_pdf documents).2 = ["Catalog root not found."]) := by
  constructor
  · unfold mainCore
    cases hmp : merge_pdf documents with
    | mk fst snd =>
      cases fst with
      | none => rfl
      | some md =>
        exfalso
        rw [hmp] at hfail
        simp at hfail
  · rw [merge_pdf_eq] at hfail ⊢
    cases hpa : pagesAcc none (mergeLoop initSt documents).documentsObjects with
    | none =>
      left
      rfl
    | some pagesObj =>
      rw [hpa] at hfail
      cases hca : catalogAcc none (mergeLoop initSt documents).documentsObjects with
      | none =>
        right
        rfl
      | some catObj =>
        rw [hca] at hfail
        simp at hfail

/-- C5 witness: the empty-input run. -/
theorem C5_failure_behaviour_witness :
    (merge_pdf ([] : List SDoc)).1 = none ∧
    (mainCore [] =
      MainOutcome.mk ((merge_pdf ([] : List SDoc)).2 ++ ["Failed to merge PDFs."])
        true false 0 ∧
     ((merge_pdf ([] : List SDoc)).2 = ["Pages root not found."] ∨
      (merge_pdf ([] : List SDoc)).2 = ["Catalog root not found."])) :=
  ⟨rfl, C5_failure_behaviour [] rfl⟩

/-- C6 (counterexample): the claim numbers each contributing document's
bookmark by its 1-based position in the input order.  Merging a zero-page
document before a one-page document records exactly one bookmark, for the
second document, but its title is "Page_1" — the counter only advances for
documents that contribute pages — not "Page_2" as the claim requires. -/
theorem C6_counterexample :
    (mergeLoop initSt [docNoPages, docOnePage]).bookmarks =
      [Bookmark.mk "Page_1" 0 (7, 0)] ∧
    "Page_2" ∉ (mergeLoop initSt [docNoPages, docOnePage]).bookmarks.map
      (fun b => b.title) :=
  ⟨by decide, by decide⟩

/-- C6 (amended): the loop records exactly one bookmark per document that
contributes at least one page, in input order, titled "Page_{n}" where n is
the 1-based count of page-contributing documents so far (zero-page documents
do not consume a number), each targeting the document's first pooled page,
at indent level 0. -/
theorem C6_bookmarks (documents : List SDoc) (hwf : ∀ d ∈ documents, WFDoc d) :
    (mergeLoop initSt documents).bookmarks = pendingBookmarks 1 (rdocsOf documents) ∧
    ((mergeLoop initSt documents).bookmarks.map (fun b => b.title)) =
      (List.range (((rdocsOf documents).filter (fun d => !d.pages.isEmpty)).length)).map
        (fun i => "Page_" ++ toString (1 + i)) ∧
    ((mergeLoop initSt documents).bookmarks.map (fun b => b.target)) =
      ((rdocsOf documents).filter (fun d => !d.pages.isEmpty)).map
        (fun d => d.pages.headD (0, 0)) ∧
    (∀ b ∈ (mergeLoop initSt documents).bookmarks, b.indent = 0) := by
  have hbm := (loop_closed hwf).2.2.1
  refine ⟨hbm, ?_, ?_, ?_⟩
  · rw [hbm]
    exact pendingBookmarks_titles _ 1
  · rw [hbm]
    exact pendingBookmarks_targets _ 1
  · rw [hbm]
    exact pendingBookmarks_indents _ 1

/-- C6 witness: the zero-page-then-one-page run. -/
theorem C6_bookmarks_witness :
    (∀ d ∈ [docNoPages, docOnePage], WFDoc d) ∧
    ((mergeLoop initSt [docNoPages, docOnePage]).bookmarks =
       pendingBookmarks 1 (rdocsOf [docNoPages, docOnePage]) ∧
     ((mergeLoop initSt [docNoPages, docOnePage]).bookmarks.map (fun b => b.title)) =
       (List.range (((rdocsOf [docNoPages, docOnePage]).filter
           (fun d => !d.pages.isEmpty)).length)).map
         (fun i => "Page_" ++ toString (1 + i)) ∧
     ((mergeLoop initSt [docNoPages, docOnePage]).bookmarks.map (fun b => b.target)) =
       ((rdocsOf [docNoPages, docOnePage]).filter (fun d => !d.pages.isEmpty)).map
         (fun d => d.pages.headD (0, 0)) ∧
     (∀ b ∈ (mergeLoop initSt [docNoPages, docOnePage]).bookmarks, b.indent = 0)) :=
  ⟨by decide, C6_bookmarks [docNoPages, docOnePage] (by decide)⟩

/-- C7: an input list containing a zero-page document whose Catalog and Pages
objects are otherwise valid merges without failing; the zero-page document
contributes no page-pool entries and no bookmark: the pool size and bookmark
count are those of the remaining documents alone. -/
theorem C7_zero_page_ok (pre post : List SDoc) (z : SDoc)
    (hwf : ∀ d ∈ pre ++ z :: post, WFDoc d)
    (hz : z.pages = [])
    (hcat : ∃ e ∈ z.objects, isCatalogB e = true)
    (hpag : ∃ e ∈ z.objects, isPagesDictB e = true) :
    ((merge_pdf (pre ++ z :: post)).1).isSome = true ∧
    (poolOf (pre ++ z :: post)).length =
      ((pre ++ post).map (fun d => d.pages.length)).sum ∧
    (mergeLoop initSt (pre ++ z :: post)).bookmarks.length =
      ((pre ++ post).filter (fun d => !d.pages.isEmpty)).length := by
  have hzmem : z ∈ pre ++ z :: post :=
    List.mem_append.mpr (Or.inr (List.mem_cons_self _ _))
  obtain ⟨off, hoff⟩ := mem_renumberAll (pre ++ z :: post) 1 z hzmem
  have hobj := (loop_closed hwf).1
  -- a Pages-classified dictionary exists among the renumbered objects
  obtain ⟨ep, hep, heppos⟩ := hpag
  have hpentry : (shiftId off ep.1, remapObj (shiftId off) ep.2) ∈
      allObjectsOf (pre ++ z :: post) := by
    unfold allObjectsOf
    rw [List.mem_flatten]
    refine ⟨(renumberWith off z).objects, ?_, ?_⟩
    · exact List.mem_map_of_mem SDoc.objects (by exact hoff)
    · show (shiftId off ep.1, remapObj (shiftId off) ep.2) ∈
        z.objects.map (fun e => (shiftId off e.1, remapObj (shiftId off) e.2))
      exact List.mem_map_of_mem _ hep
  have hppos : isPagesDictB (shiftId off ep.1, remapObj (shiftId off) ep.2) = true := by
    rw [isPagesDictB_remap (shiftId off) ep.1 (shiftId off ep.1) ep.2]
    rw [show (ep.1, ep.2) = ep from rfl]
    exact heppos
  obtain ⟨ec, hec, hecpos⟩ := hcat
  have hcentry : (shiftId off ec.1, remapObj (shiftId off) ec.2) ∈
      allObjectsOf (pre ++ z :: post) := by
    unfold allObjectsOf
    rw [List.mem_flatten]
    refine ⟨(renumberWith off z).objects, ?_, ?_⟩
    · exact List.mem_map_of_mem SDoc.objects (by exact hoff)
    · show (shiftId off ec.1, remapObj (shiftId off) ec.2) ∈
        z.objects.map (fun e => (shiftId off e.1, remapObj (shiftId off) e.2))
      exact List.mem_map_of_mem _ hec
  have hcpos : isCatalogB (shiftId off ec.1, remapObj (shiftId off) ec.2) = true := by
    rw [isCatalogB_remap (shiftId off) ec.1 (shiftId off ec.1) ec.2]
    rw [show (ec.1, ec.2) = ec from rfl]
    exact hecpos
  refine ⟨?_, ?_, ?_⟩
  · -- the merge succeeds
    rw [merge_pdf_eq]
    have hfind : ((allObjectsOf (pre ++ z :: post)).find? isPagesDictB).isSome := by
      rw [List.find?_isSome]
      exact ⟨_, hpentry, hppos⟩
    cases hfp : (allObjectsOf (pre ++ z :: post)).find? isPagesDictB with
    | none => rw [hfp] at hfind; simp at hfind
    | some fp =>
      obtain ⟨dct, _, hacc, _⟩ := pagesAcc_closed _ fp hfp
      rw [hobj, hacc]
      have hcfind : ((allObjectsOf (pre ++ z :: post)).find? isCatalogB).isSome := by
        rw [List.find?_isSome]
        exact ⟨_, hcentry, hcpos⟩
      cases hca : catalogAcc none (allObjectsOf (pre ++ z :: post)) with
      | none =>
        exfalso
        have hid := catalogAcc_id (allObjectsOf (pre ++ z :: post))
        rw [hca] at hid
        cases hfc : (allObjectsOf (pre ++ z :: post)).find? isCatalogB with
        | none => rw [hfc] at hcfind; simp at hcfind
        | some fc => rw [hfc] at hid; simp at hid
      | some catObj =>
        rfl
  · -- pool size
    rw [poolOf_length hwf]
    simp [List.map_append, List.sum_append, hz]
  · -- bookmark count
    rw [(loop_closed hwf).2.2.1, pendingBookmarks_length]
    unfold rdocsOf
    rw [renumberAll_contrib_count (pre ++ z :: post) 1]
    rw [List.filter_append, List.filter_append, List.filter_cons]
    rw [show z.pages.isEmpty = true from by rw [hz]; rfl]
    simp

/-- C7 witness: the zero-page document merged together with `docOnePage`. -/
theorem C7_zero_page_ok_witness :
    (∀ d ∈ ([] : List SDoc) ++ docNoPages :: [docOnePage], WFDoc d) ∧
    docNoPages.pages = [] ∧
    (∃ e ∈ docNoPages.objects, isCatalogB e = true) ∧
    (∃ e ∈ docNoPages.objects, isPagesDictB e = true) ∧
    (((merge_pdf (([] : List SDoc) ++ docNoPages :: [docOnePage])).1).isSome = true ∧
     (poolOf (([] : List SDoc) ++ docNoPages :: [docOnePage])).length =
       ((([] : List SDoc) ++ [docOnePage]).map (fun d => d.pages.length)).sum ∧
     (mergeLoop initSt (([] : List SDoc) ++ docNoPages :: [docOnePage])).bookmarks.length =
       ((([] : List SDoc) ++ [docOnePage]).filter (fun d => !d.pages.isEmpty)).length) :=
  ⟨by decide, rfl,
   ⟨_, List.mem_cons_self _ _, by decide⟩,
   ⟨_, List.mem_cons_of_mem _ (List.mem_cons_self _ _), by decide⟩,
   C7_zero_page_ok [] [docOnePage] docNoPages (by decide) rfl
     ⟨_, List.mem_cons_self _ _, by decide⟩
     ⟨_, List.mem_cons_of_mem _ (List.mem_cons_self _ _), by decide⟩⟩

/-- C8: classification is a total reclassification — it returns a result for
every entry sequence and never an error — and every object whose Type
resolves to none of the five recognised roles (Catalog, Pages, Page,
Outlines, Outline) is placed in the collector's "other objects" table. -/
theorem C8_unclassified_to_others (es : List (ObjectId × Obj)) (e : ObjectId × Obj)
    (hnd : (btKeys es).Nodup) (he : e ∈ es)
    (hother : typeNameD e.2 ≠ "Catalog" ∧ typeNameD e.2 ≠ "Pages" ∧
      typeNameD e.2 ≠ "Page" ∧ typeNameD e.2 ≠ "Outlines" ∧
      typeNameD e.2 ≠ "Outline") :
    assocFind (es.foldl collectStep ⟨none, none, []⟩).others e.1 = some e.2 := by
  obtain ⟨ho, _, _⟩ := collect_init es
  rw [ho]
  refine assocFind_othersFold_mem es [] e he ?_ hnd
  simp only [isOtherB, decide_eq_true_eq]
  exact hother

/-- C8 witness: a bare integer object has no resolvable Type and lands in the
"other objects" table. -/
theorem C8_unclassified_to_others_witness :
    (btKeys [((5, 0), Obj.integer 7)]).Nodup ∧
    ((5, 0), Obj.integer 7) ∈ [((5, 0), Obj.integer 7)] ∧
    (typeNameD (Obj.integer 7) ≠ "Catalog" ∧ typeNameD (Obj.integer 7) ≠ "Pages" ∧
      typeNameD (Obj.integer 7) ≠ "Page" ∧ typeNameD (Obj.integer 7) ≠ "Outlines" ∧
      typeNameD (Obj.integer 7) ≠ "Outline") ∧
    assocFind ([((5, 0), Obj.integer 7)].foldl collectStep ⟨none, none, []⟩).others (5, 0) =
      some (Obj.integer 7) :=
  ⟨by decide, List.mem_cons_self _ _, by decide,
   C8_unclassified_to_others [((5, 0), Obj.integer 7)] ((5, 0), Obj.integer 7)
     (by decide) (List.mem_cons_self _ _) (by decide)⟩

/-- C9: merging the empty list of documents returns no merged document and
reports the missing-Pages structural error, rather than producing an empty
merged document. -/
theorem C9_empty_input : merge_pdf [] = (none, ["Pages root not found."]) := rfl

/-- C10 (spec-modelled `get_pages`): every identifier returned by the
page-tree traversal is found in the same document's object table, so the
`unwrap` on the pooled page lookup never panics — `getObjD`'s default value
is never the result. -/
theorem C10_get_pages_resolves : ∀ (tbl : List (ObjectId × Obj)) (fuel : Nat)
    (root p : ObjectId), p ∈ collectTreePages tbl fuel root →
    ∃ o, assocFind tbl p = some o ∧ getObjD tbl p = o
  | tbl, 0, root, p, h => by simp [collectTreePages] at h
  | tbl, fuel + 1, root, p, h => by
    unfold collectTreePages at h
    split at h
    · simp at h
    · rename_i o hr
      split at h
      · have hp : p = root := by simpa using h
        subst hp
        exact ⟨o, hr, by unfold getObjD; rw [hr]; rfl⟩
      · split at h
        · simp only [List.mem_flatten, List.mem_map] at h
          obtain ⟨l, ⟨kidId, _, rfl⟩, hpl⟩ := h
          exact C10_get_pages_resolves tbl fuel kidId p hpl
        · simp at h

/-- C10 witness: traversing `docOnePage`'s page tree from its pages root
yields its page (3,0), which the table resolves. -/
theorem C10_get_pages_resolves_witness :
    (3, 0) ∈ collectTreePages docOnePage.objects 2 (2, 0) ∧
    ∃ o, assocFind docOnePage.objects (3, 0) = some o ∧
      getObjD docOnePage.objects (3, 0) = o :=
  ⟨by decide, C10_get_pages_resolves docOnePage.objects 2 (2, 0) (3, 0) (by decide)⟩
